import Mathlib

/-!
# CODEOWNERS audit pipeline (`lib/auditor.go`)

A shallow embedding of the audit pipeline of `lib/auditor.go`:
`scanRepositories → fetchCodeowners → validateCodeowners → buildReport`,
raced by `CheckForCodeownersFiles` against an error bus and the context.

Conventions of the embedding.

* A goroutine loop `for { select { ... } }` is embedded as a step function on
  the outcome of one `select`; a stage is the iteration of that step along the
  sequence of outcomes its `select` statements produce.
* The GitHub client, `RepositoryContent.GetContent`, `codeowners.ParseFile`
  and `runtime.NumCPU` are not part of the repository: they are fields of
  `Externals`, and the general theorems quantify over them.
* Go map iteration order is unspecified: wherever the code ranges over a map,
  the order of the keys is a parameter (`codeownersExist`) or the choice of the
  next key is part of the schedule (`Action.valCheck`).
* The whole pipeline is a transition system `step` on `Sys`: one step is one
  goroutine taking one ready case of its `select`, or moving to its next
  blocking point. A run is a schedule, a list of `Action`s. Unbuffered channels
  make a send and its receive one step.
-/

namespace Autonomy

/-! ## Data model -/

/-- Go `error` values: `errors.New(text)` and `fmt.Errorf(pre + "%w", inner)`. -/
inductive Error where
  | msg (text : String)
  | wrap (pre : String) (inner : Error)
  deriving DecidableEq, Repr

/-- The part of `github.User` the pipeline reads. -/
structure User where
  Name : Option String
  deriving DecidableEq, Repr

/-- The part of `github.Repository` the pipeline reads (`*r.Owner.Name`, `*r.Name`). -/
structure Repository where
  Owner : Option User
  Name : Option String
  deriving DecidableEq, Repr

/-- The payload of `github.RepositoryContent`; only `GetContent` looks inside. -/
structure RepositoryContent where
  Encoding : Option String
  Content : Option String
  deriving DecidableEq, Repr

/-- `codeowners.Owner`; the field `Type` of the source is `Type_` here. -/
structure Owner where
  Value : String
  Type_ : String
  deriving DecidableEq, Repr

/-- The part of `codeowners.Rule` the pipeline reads. -/
structure Rule where
  Owners : List Owner
  deriving DecidableEq, Repr

/-- `codeowners.Ruleset`. -/
abbrev Ruleset := List Rule

/-- `type CodeownersReport struct`. -/
structure CodeownersReport where
  Missing : List Repository
  Invalid : List Repository
  Present : List Repository
  deriving DecidableEq, Repr

/-- `type codeownersFetch struct`: both the fetch result and the outcome. -/
structure codeownersFetch where
  Repo : Repository
  Contents : Option RepositoryContent
  IsValid : Bool
  Err : Option Error
  deriving DecidableEq, Repr

/-- What one execution of `select { case <-ctx.Done(): ... case v, ok := <-input: ... }`
observes: the context is done, a value arrives, or the input is closed. -/
inductive Recv (α : Type) where
  | done
  | value (v : α)
  | closed
  deriving DecidableEq, Repr

/-! ## `buildReport` -/

/-- Control state of the `buildReport` goroutine: in the `select` with the
report built so far, at `valStream <- r`, or returned (`valStream` closed
by the deferred `close`) without having sent. -/
inductive AggPc where
  | selecting (r : CodeownersReport)
  | sending (r : CodeownersReport)
  | exited
  deriving DecidableEq, Repr

/-- The initial report of `buildReport`: `Missing` and `Present` are made empty,
`Invalid` is left nil. -/
def emptyReport : CodeownersReport :=
  { Missing := [], Invalid := [], Present := [] }

/-- One iteration of the loop of `buildReport` (auditor.go 222-241). -/
def buildReportStep (r : CodeownersReport) : Recv codeownersFetch → AggPc
  | .done => .exited
  | .closed => .sending r
  | .value f =>
    if f.Err.isSome then
      .selecting { r with Missing := r.Missing ++ [f.Repo] }
    else if !f.IsValid then
      .selecting { r with Missing := r.Missing ++ [f.Repo] }
    else
      .selecting { r with Present := r.Present ++ [f.Repo] }

/-- The loop of `buildReport` along the outcomes of its `select`s. When the
outcomes run out the goroutine is still in its `select`. -/
def buildReportLoop (r : CodeownersReport) : List (Recv codeownersFetch) → AggPc
  | [] => .selecting r
  | ev :: evs =>
    match buildReportStep r ev with
    | .selecting r1 => buildReportLoop r1 evs
    | pc => pc

/-- The goroutine of `buildReport`, from its initial report. -/
def buildReport (evs : List (Recv codeownersFetch)) : AggPc :=
  buildReportLoop emptyReport evs

/-- The outcomes of the `select`s of a stage that receives `fs` and then sees
its input closed, the context never being done. -/
def drained {α : Type} (fs : List α) : List (Recv α) :=
  fs.map Recv.value ++ [Recv.closed]

/-- The folding rule in the words of the specification, one outcome at a time:
error present → Missing; validity false (no error) → Missing; validity true →
Compliant (`Present`). -/
def specFold : List codeownersFetch → CodeownersReport
  | [] => { Missing := [], Invalid := [], Present := [] }
  | f :: fs =>
    let rest := specFold fs
    match f.Err, f.IsValid with
    | some _, _ => { rest with Missing := f.Repo :: rest.Missing }
    | none, false => { rest with Missing := f.Repo :: rest.Missing }
    | none, true => { rest with Present := f.Repo :: rest.Present }

/-- An outcome that `buildReport` routes to `Missing`. -/
def isMissing (f : codeownersFetch) : Bool := f.Err.isSome || !f.IsValid

/-- An outcome that `buildReport` routes to `Present`. -/
def isPresent (f : codeownersFetch) : Bool := f.Err.isNone && f.IsValid

/-! ## External collaborators -/

/-- The code outside the repository that the pipeline calls. The context
argument of the client calls is not part of the embedding: a behaviour of the
client is any function of the remaining arguments.

* `ListByOrg org page` is `ghClient.Repositories.ListByOrg` with `opts.Page = page`,
  returning the repositories of the page and `resp.NextPage`;
* `GetContents owner repo path` is `ghClient.Repositories.GetContents`, returning
  the file content `fc` and `err` (both are stored by the caller as returned);
* `GetTeamBySlug org slug` is `ghClient.Teams.GetTeamBySlug`, returning `err`;
* `GetContent c` is `(*RepositoryContent).GetContent` on the pointer `c`;
* `ParseFile raw` is `codeowners.ParseFile(strings.NewReader(raw))`;
* `NumCPU` is `runtime.NumCPU()`. -/
structure Externals where
  ListByOrg : String → Nat → Except Error (List Repository × Nat)
  GetContents : String → String → String → Option RepositoryContent × Option Error
  GetTeamBySlug : String → String → Option Error
  GetContent : Option RepositoryContent → Except Error String
  ParseFile : String → Except Error Ruleset
  NumCPU : Nat

/-- An external call, as recorded in the order the pipeline issues them. -/
inductive Call where
  | listByOrg (org : String) (page : Nat)
  | getContents (owner repo path : String)
  | getContent (c : Option RepositoryContent)
  | parseFile (raw : String)
  | getTeamBySlug (org slug : String)
  deriving DecidableEq, Repr

/-- `const codeownersPath`. -/
def codeownersPath : String := "/CODEOWNERS"

/-! ## `codeownersExist` -/

/-- `strings.Split(s, "/")` on the characters of `s`: never empty. -/
def splitSlash : List Char → List (List Char)
  | [] => [[]]
  | c :: cs =>
    match splitSlash cs with
    | [] => [[]]
    | p :: ps => if c = '/' then [] :: p :: ps else (c :: p) :: ps

/-- `strings.TrimPrefix(org, "@")`. -/
def trimAt : List Char → List Char
  | '@' :: cs => cs
  | cs => cs

/-- Lines 201-203: `parts := strings.Split(teamSlug, "/")[:2]`, then
`org, teamName := parts[0], parts[1]` and `org = strings.TrimPrefix(org, "@")`.
`none` is the run-time panic of `[:2]` on a slice of capacity one (a slug
without a slash). -/
def teamArgs (teamSlug : String) : Option (String × String) :=
  match splitSlash teamSlug.toList with
  | org :: teamName :: _ => some (String.mk (trimAt org), String.mk teamName)
  | _ => none

/-- The values inserted as keys of `teams` by the first loop of `codeownersExist`
(lines 187-193), in the order of insertion, repetitions included. -/
def teamValues (rules : Ruleset) : List String :=
  ((rules.flatMap (·.Owners)).filter (fun o => o.Type_ = "team")).map (·.Value)

/-- The keys of the map `teams` after the first loop. -/
def teamKeys (rules : Ruleset) : List String :=
  (teamValues rules).dedup

/-- How one iteration of `for teamSlug := range teams` ends. -/
inductive TeamCheck where
  | returns (b : Bool)
  | continues
  | panics
  deriving DecidableEq, Repr

/-- The body of `for teamSlug := range teams` (lines 196-207); `done` is what
the poll of `ctx.Done()` observes. Returns how the iteration ends and the
external calls it issued. -/
def teamCheck (x : Externals) (done : Bool) (teamSlug : String) : TeamCheck × List Call :=
  if done then (.returns false, [])
  else
    match teamArgs teamSlug with
    | none => (.panics, [])
    | some (org, teamName) =>
      match x.GetTeamBySlug org teamName with
      | some _ => (.returns false, [.getTeamBySlug org teamName])
      | none => (.continues, [.getTeamBySlug org teamName])

/-- A finished call of `codeownersExist`: the value returned (`none` for a
panic) and the external calls issued, in order. -/
structure ExistRun where
  result : Option Bool
  calls : List Call
  deriving DecidableEq, Repr

/-- The second loop of `codeownersExist` over the keys in the order `ks` the
map iteration visits them; `done i` is what the poll of `ctx.Done()` observes
in iteration `i`. -/
def codeownersExistLoop (x : Externals) (done : Nat → Bool) : Nat → List String → ExistRun
  | _, [] => { result := some true, calls := [] }
  | i, k :: ks =>
    match teamCheck x (done i) k with
    | (.returns b, cs) => { result := some b, calls := cs }
    | (.panics, cs) => { result := none, calls := cs }
    | (.continues, cs) =>
      let r := codeownersExistLoop x done (i + 1) ks
      { result := r.result, calls := cs ++ r.calls }

/-- An order in which `range teams` may visit the keys of the map built from `rules`. -/
def KeyOrder (rules : Ruleset) (ks : List String) : Prop :=
  ks.Perm (teamKeys rules)

instance (rules : Ruleset) (ks : List String) : Decidable (KeyOrder rules ks) := by
  unfold KeyOrder; infer_instance

/-- `codeownersExist(ctx, rules)` when the map iteration visits the keys in the
order `ks` (a `KeyOrder rules`). -/
def codeownersExist (x : Externals) (done : Nat → Bool) (_rules : Ruleset)
    (ks : List String) : ExistRun :=
  codeownersExistLoop x done 0 ks

/-- The context is never done. -/
def neverDone : Nat → Bool := fun _ => false

/-- What the parser guarantees of a parsed rule set, as far as `codeownersExist`
depends on it: the value of every owner of type "team" is of the form
`org/name`, so that it splits at a slash. -/
def TeamRefsSplit (rules : Ruleset) : Prop :=
  ∀ v ∈ teamValues rules, (teamArgs v).isSome = true

instance (rules : Ruleset) : Decidable (TeamRefsSplit rules) := by
  unfold TeamRefsSplit; infer_instance

/-- The lookup that `codeownersExist` issues for the team reference `v` reports
no error. -/
def lookupSucceeds (x : Externals) (v : String) : Prop :=
  ∃ org teamName, teamArgs v = some (org, teamName) ∧ x.GetTeamBySlug org teamName = none

/-- The lookups among `cs`. -/
def lookupsOf (cs : List Call) : List (String × String) :=
  cs.filterMap fun c =>
    match c with
    | .getTeamBySlug org slug => some (org, slug)
    | _ => none

/-! ## `fetchCodeowners`: one worker -/

/-- Control state of a worker goroutine of `fetchCodeowners`: in the `select`,
at `valStream <- codeownersFetch{...}`, or returned. -/
inductive WorkerPc where
  | selecting
  | sending (f : codeownersFetch)
  | exited
  deriving DecidableEq, Repr

/-- Lines 122-128: the fetch of one repository and the record built from it.
`none` is the nil dereference of `*r.Owner.Name` or `*r.Name`. -/
def fetchOne (x : Externals) (r : Repository) : Option (codeownersFetch × List Call) :=
  match r.Owner with
  | none => none
  | some o =>
    match o.Name, r.Name with
    | some owner, some name =>
      let res := x.GetContents owner name codeownersPath
      some ({ Repo := r, Contents := res.1, IsValid := false, Err := res.2 },
            [.getContents owner name codeownersPath])
    | _, _ => none

/-- One iteration of a worker loop (lines 114-130); `none` is a panic. -/
def workerStep (x : Externals) : Recv Repository → Option (WorkerPc × List Call)
  | .done => some (.exited, [])
  | .closed => some (.exited, [])
  | .value r =>
    match fetchOne x r with
    | some (f, cs) => some (.sending f, cs)
    | none => none

/-! ## `validateCodeowners` -/

/-- Control state of the goroutine of `validateCodeowners`: in the `select`,
inside the second loop of `codeownersExist` with the keys not yet visited, at
`valStream <- f`, or returned. -/
inductive ValPc where
  | selecting
  | checking (f : codeownersFetch) (teams : List String)
  | sending (f : codeownersFetch)
  | exited
  deriving DecidableEq, Repr

/-- The head of `range teams`: with no key left `codeownersExist` returns true
and line 175-176 sends `f` with `IsValid = true`. -/
def enterCheck (f : codeownersFetch) : List String → ValPc
  | [] => .sending { f with IsValid := true }
  | k :: ks => .checking f (k :: ks)

/-- One iteration of the validator loop up to the call of `codeownersExist`
(lines 148-175), with the external calls issued. -/
def validateStep (x : Externals) : Recv codeownersFetch → ValPc × List Call
  | .done => (.exited, [])
  | .closed => (.exited, [])
  | .value f =>
    if f.Err.isSome then (.sending f, [])
    else
      match x.GetContent f.Contents with
      | .error e => (.sending { f with Err := some e }, [.getContent f.Contents])
      | .ok raw =>
        match x.ParseFile raw with
        | .error _ => (.sending f, [.getContent f.Contents, .parseFile raw])
        | .ok parsed =>
          (enterCheck f (teamKeys parsed), [.getContent f.Contents, .parseFile raw])

/-- One iteration of `range teams` inside the validator, visiting the key `k`
of the keys `teams` not yet visited; `none` is a panic. -/
def validateCheck (x : Externals) (done : Bool) (f : codeownersFetch)
    (teams : List String) (k : String) : Option (ValPc × List Call) :=
  match teamCheck x done k with
  | (.returns b, cs) => some (.sending { f with IsValid := b }, cs)
  | (.continues, cs) => some (enterCheck f (teams.erase k), cs)
  | (.panics, _) => none

/-! ## `scanRepositories` -/

/-- Control state of the goroutine of `scanRepositories`: at the head of the
loop with `opts.Page`, inside `for _, repo := range repos` at
`valStream <- *repo` with the repositories still to send and `resp.NextPage`,
at `errBus <- err`, or returned (`valStream` closed). -/
inductive ScanPc where
  | top (page : Nat)
  | sending (pending : List Repository) (next : Nat)
  | sendingErr (e : Error)
  | exited
  deriving DecidableEq, Repr

/-- Lines 77-85 once `pending` remain to be sent of the current page. -/
def scanAfter (pending : List Repository) (next : Nat) : ScanPc :=
  match pending with
  | [] => if next = 0 then .exited else .top next
  | r :: rs => .sending (r :: rs) next

/-- Lines 63-85 from the head of the loop; `done` is what the poll of
`ctx.Done()` observes. -/
def scanTop (x : Externals) (org : String) (done : Bool) (page : Nat) : ScanPc × List Call :=
  if done then (.exited, [])
  else
    match x.ListByOrg org page with
    | .error e => (.sendingErr e, [.listByOrg org page])
    | .ok (repos, next) => (scanAfter repos next, [.listByOrg org page])

/-! ## `CheckForCodeownersFiles` -/

/-- What the `select` of `CheckForCodeownersFiles` (lines 42-52) observes. -/
inductive CoordEvent where
  | done
  | err (e : Error)
  | result (r : CodeownersReport)
  | resultClosed
  deriving DecidableEq, Repr

/-- The zero value `CodeownersReport{}`. -/
def zeroReport : CodeownersReport :=
  { Missing := [], Invalid := [], Present := [] }

/-- The value returned by `CheckForCodeownersFiles` for what its `select`
observes (lines 43-51). In the third case the received `c` shadows the outer
one; on a closed channel it is the zero value. -/
def coordReturn : CoordEvent → CodeownersReport × Option Error
  | .done => (zeroReport, some (.msg "cancelled operation"))
  | .err e => (zeroReport, some (.wrap "failed to scan: " e))
  | .result r => (r, none)
  | .resultClosed => (zeroReport, some (.msg "unexpected halt in scan"))

/-- Control state of `CheckForCodeownersFiles`. The argument of line 39 is
evaluated innermost first; a call that starts goroutines and then returns is
two steps when its return runs a deferred `cancel`. -/
inductive CoordPc where
  | start
  | fetchSpawn
  | fetchReturn
  | validateSpawn
  | validateReturn
  | buildSpawn
  | selecting
  | returned (c : CodeownersReport) (err : Option Error)
  deriving DecidableEq, Repr

/-! ## The pipeline as a transition system -/

/-- The state of one run of `CheckForCodeownersFiles`: the control state of
every goroutine, the cancellation flags, and logs of what went over the
channels and to the external collaborators. Channels are unbuffered: a send
and the matching receive are one step, taken by the receiver. -/
structure Sys where
  /-- The caller's context is done. -/
  callerDone : Bool
  coord : CoordPc
  scan : Option ScanPc
  /-- The deferred `cancel` of `fetchCodeowners` has run. -/
  fetchCancel : Bool
  fetchSpawned : Bool
  workers : List WorkerPc
  /-- The goroutine of lines 134-137 has closed the output of the fetch pool. -/
  fetchClosed : Bool
  /-- The deferred `cancel` of `validateCodeowners` has run. -/
  valCancel : Bool
  val : Option ValPc
  agg : Option AggPc
  /-- A goroutine has panicked. -/
  crashed : Bool
  /-- The repositories received by workers, in order. -/
  scanLog : List Repository
  /-- The fetch results received by the validator, in order. -/
  fetchLog : List codeownersFetch
  /-- The outcomes received by `buildReport`, in order. -/
  aggLog : List codeownersFetch
  /-- The external calls issued, in order. -/
  calls : List Call
  deriving DecidableEq, Repr

/-- The state when `CheckForCodeownersFiles` is called. -/
def initSys : Sys :=
  { callerDone := false, coord := .start, scan := none, fetchCancel := false,
    fetchSpawned := false, workers := [], fetchClosed := false, valCancel := false,
    val := none, agg := none, crashed := false, scanLog := [], fetchLog := [],
    aggLog := [], calls := [] }

/-- The context derived at line 36 is done: the caller's is, or the deferred
`cancel` of line 37 has run. -/
def Sys.coordCtxDone (s : Sys) : Bool :=
  s.callerDone || (match s.coord with | .returned _ _ => true | _ => false)

/-- The context derived at line 105 is done. -/
def Sys.fetchCtxDone (s : Sys) : Bool := s.coordCtxDone || s.fetchCancel

/-- The context derived at line 144 (and the one derived from it at line 185) is done. -/
def Sys.valCtxDone (s : Sys) : Bool := s.coordCtxDone || s.valCancel

/-- The steps of the transition system: which goroutine moves, and for a
`select` which ready case it takes. -/
inductive Action where
  | callerCancel
  | coordAdvance
  | coordDone
  | coordErr
  | coordResult
  | coordResultClosed
  | scanStep
  | workerDone (i : Nat)
  | workerRecv (i : Nat)
  | workerClosed (i : Nat)
  | closeFetch
  | valDone
  | valRecv (i : Nat)
  | valClosed
  | valCheck (k : String)
  | aggDone
  | aggRecv
  | aggClosed
  deriving DecidableEq, Repr

/-- The coordinator returns what `coordReturn` gives for the observed event. -/
def Sys.coordReturns (s : Sys) (ev : CoordEvent) : Sys :=
  { s with coord := .returned (coordReturn ev).1 (coordReturn ev).2 }

/-- One step; `none` when the action is not enabled in the state. -/
def step (x : Externals) (org : String) (s : Sys) (a : Action) : Option Sys :=
  if s.crashed then none
  else
    match a with
    | .callerCancel => if s.callerDone then none else some { s with callerDone := true }
    | .coordAdvance =>
      match s.coord with
      | .start => some { s with coord := .fetchSpawn, scan := some (.top 0) }
      | .fetchSpawn =>
        some { s with coord := .fetchReturn, fetchSpawned := true,
                      workers := List.replicate x.NumCPU .selecting }
      | .fetchReturn => some { s with coord := .validateSpawn, fetchCancel := true }
      | .validateSpawn => some { s with coord := .validateReturn, val := some .selecting }
      | .validateReturn => some { s with coord := .buildSpawn, valCancel := true }
      | .buildSpawn =>
        some { s with coord := .selecting, agg := some (.selecting emptyReport) }
      | _ => none
    | .coordDone =>
      match s.coord with
      | .selecting => if s.callerDone then some (s.coordReturns .done) else none
      | _ => none
    | .coordErr =>
      match s.coord, s.scan with
      | .selecting, some (.sendingErr e) =>
        some { s.coordReturns (.err e) with scan := some .exited }
      | _, _ => none
    | .coordResult =>
      match s.coord, s.agg with
      | .selecting, some (.sending r) =>
        some { s.coordReturns (.result r) with agg := some .exited }
      | _, _ => none
    | .coordResultClosed =>
      match s.coord, s.agg with
      | .selecting, some .exited => some (s.coordReturns .resultClosed)
      | _, _ => none
    | .scanStep =>
      match s.scan with
      | some (.top page) =>
        let res := scanTop x org s.coordCtxDone page
        some { s with scan := some res.1, calls := s.calls ++ res.2 }
      | some (.sendingErr _) =>
        -- `errBus` is closed by the deferred `close` of line 35: the send panics
        match s.coord with
        | .returned _ _ => some { s with crashed := true }
        | _ => none
      | _ => none
    | .workerDone i =>
      match s.workers.get? i with
      | some .selecting =>
        if s.fetchCtxDone then some { s with workers := s.workers.set i .exited } else none
      | _ => none
    | .workerRecv i =>
      match s.workers.get? i, s.scan with
      | some .selecting, some (.sending (r :: rs) next) =>
        match workerStep x (.value r) with
        | some (pc, cs) =>
          some { s with workers := s.workers.set i pc, scan := some (scanAfter rs next),
                        scanLog := s.scanLog ++ [r], calls := s.calls ++ cs }
        | none => some { s with crashed := true }
      | _, _ => none
    | .workerClosed i =>
      match s.workers.get? i, s.scan with
      | some .selecting, some .exited => some { s with workers := s.workers.set i .exited }
      | _, _ => none
    | .closeFetch =>
      if s.fetchSpawned && !s.fetchClosed && s.workers.all (fun w => w = .exited) then
        some { s with fetchClosed := true }
      else none
    | .valDone =>
      match s.val with
      | some .selecting => if s.valCtxDone then some { s with val := some .exited } else none
      | _ => none
    | .valRecv i =>
      match s.val, s.workers.get? i with
      | some .selecting, some (.sending f) =>
        let res := validateStep x (.value f)
        some { s with val := some res.1, workers := s.workers.set i .selecting,
                      fetchLog := s.fetchLog ++ [f], calls := s.calls ++ res.2 }
      | _, _ => none
    | .valClosed =>
      match s.val with
      | some .selecting => if s.fetchClosed then some { s with val := some .exited } else none
      | _ => none
    | .valCheck k =>
      match s.val with
      | some (.checking f teams) =>
        if k ∈ teams then
          match validateCheck x s.valCtxDone f teams k with
          | some (pc, cs) => some { s with val := some pc, calls := s.calls ++ cs }
          | none => some { s with crashed := true }
        else none
      | _ => none
    | .aggDone =>
      match s.agg with
      | some (.selecting r) =>
        if s.coordCtxDone then some { s with agg := some (buildReportStep r .done) } else none
      | _ => none
    | .aggRecv =>
      match s.agg, s.val with
      | some (.selecting r), some (.sending f) =>
        some { s with agg := some (buildReportStep r (.value f)), val := some .selecting,
                      aggLog := s.aggLog ++ [f] }
      | _, _ => none
    | .aggClosed =>
      match s.agg, s.val with
      | some (.selecting r), some .exited =>
        some { s with agg := some (buildReportStep r .closed) }
      | _, _ => none

/-- A run: the steps of a schedule one after the other; `none` when a step of
the schedule is not enabled. -/
def run (x : Externals) (org : String) : Sys → List Action → Option Sys
  | s, [] => some s
  | s, a :: as =>
    match step x org s a with
    | some s1 => run x org s1 as
    | none => none

/-! ## Shapes of the returned value -/

/-- The report `buildReport` holds after receiving the outcomes `fs`. -/
def reportOf (fs : List codeownersFetch) : CodeownersReport :=
  { Missing := (fs.filter isMissing).map codeownersFetch.Repo, Invalid := [],
    Present := (fs.filter isPresent).map codeownersFetch.Repo }

/-- The shapes of the pair `(c, err)` returned by `CheckForCodeownersFiles` in the
state `s` of a run:

* no error, with `c` the report of all the outcomes `buildReport` received, the
  output of the validator being closed and `buildReport` having returned;
* the zero report and the error of a failed `ListByOrg` call, wrapped;
* the zero report and "cancelled operation", the caller's context being done;
* the zero report and "unexpected halt in scan", the caller's context being done. -/
def ReturnShape (x : Externals) (org : String) (s : Sys) (c : CodeownersReport)
    (err : Option Error) : Prop :=
  (err = none ∧ c = reportOf s.aggLog ∧ s.val = some ValPc.exited ∧ s.agg = some AggPc.exited) ∨
  (c = zeroReport ∧
    ∃ e page, x.ListByOrg org page = Except.error e ∧
      err = some (Error.wrap "failed to scan: " e)) ∨
  (c = zeroReport ∧ err = some (Error.msg "cancelled operation") ∧ s.callerDone = true) ∨
  (c = zeroReport ∧ err = some (Error.msg "unexpected halt in scan") ∧ s.callerDone = true)

/-- The three shapes of the specification: a report with no error, the zero
report with a wrapped enumeration error, the zero report with the cancellation
error. -/
def SpecShape (c : CodeownersReport) (err : Option Error) : Prop :=
  err = none ∨
  (c = zeroReport ∧ ∃ e, err = some (Error.wrap "failed to scan: " e)) ∨
  (c = zeroReport ∧ err = some (Error.msg "cancelled operation"))

/-- An invariant of the runs of the pipeline, relating the control state of
`buildReport` and of the coordinator to the log of received outcomes. -/
structure Inv (x : Externals) (org : String) (s : Sys) : Prop where
  selecting : ∀ r, s.agg = some (AggPc.selecting r) → r = reportOf s.aggLog
  sending : ∀ r, s.agg = some (AggPc.sending r) →
    r = reportOf s.aggLog ∧ s.val = some ValPc.exited
  exited : s.agg = some AggPc.exited → s.coordCtxDone = true
  scanErr : ∀ e, s.scan = some (ScanPc.sendingErr e) →
    ∃ page, x.ListByOrg org page = Except.error e
  returned : ∀ c err, s.coord = CoordPc.returned c err → ReturnShape x org s c err
  notBuilt : s.agg = none → s.aggLog = []
  built : s.agg = none ∨ s.coord = CoordPc.selecting ∨ ∃ c err, s.coord = CoordPc.returned c err

/-! ## Bookkeeping of the fetch pool -/

/-- The fetch result a worker holds at its send, if it is at its send. -/
def WorkerPc.held : WorkerPc → Option codeownersFetch
  | .sending f => some f
  | _ => none

/-- The fetch results held by the workers blocked at `valStream <- ...`. -/
def inflight (ws : List WorkerPc) : List codeownersFetch :=
  ws.filterMap WorkerPc.held

/-- The record a worker builds for the repository `r`. -/
def fetched (x : Externals) (r : Repository) : Option codeownersFetch :=
  (fetchOne x r).map Prod.fst

/-- The `GetContents` calls among `cs`. -/
def getContentsCalls (cs : List Call) : List Call :=
  cs.filter fun c =>
    match c with
    | .getContents _ _ _ => true
    | _ => false

/-- An invariant of the runs of the pipeline on the fetch pool: what the workers
received, what they hold and what they emitted. -/
structure PoolInv (x : Externals) (s : Sys) : Prop where
  results : (s.fetchLog ++ inflight s.workers).Perm (s.scanLog.filterMap (fetched x))
  fetchedAll : ∀ r ∈ s.scanLog, (fetched x r).isSome = true
  calls : (getContentsCalls s.calls).length = s.scanLog.length
  unspawned : s.fetchSpawned = false → s.workers = [] ∧ s.fetchClosed = false
  spawnPc : s.coord = CoordPc.start ∨ s.coord = CoordPc.fetchSpawn → s.fetchSpawned = false
  closed : s.fetchClosed = true → ∀ w ∈ s.workers, w = WorkerPc.exited

/-- The lookup call that `codeownersExist` issues for the key `k`, if `k` splits. -/
def callOf (k : String) : Option Call :=
  (teamArgs k).map fun p => Call.getTeamBySlug p.1 p.2

/-! ## A concrete organisation

The scenario of the specification: three repositories `A`, `B`, `C`; the file of
`A` names the existing team `acme/core`, `B` has no file, the file of `C` names
the team `acme/ghosts`, which does not exist. A fourth repository `D`, not
listed, has a file that does not parse. Listing any other organisation fails. -/

/-- The repository of the organisation `acme` called `name`. -/
def acmeRepo (name : String) : Repository :=
  { Owner := some { Name := some "acme" }, Name := some name }

/-- A file content with the text `text`. -/
def fileOf (text : String) : RepositoryContent :=
  { Encoding := none, Content := some text }

/-- A rule set with one rule, owned by the team `team`. -/
def oneTeam (team : String) : Ruleset :=
  [{ Owners := [{ Value := team, Type_ := "team" }] }]

/-- The external collaborators of the scenario, on a machine with two CPUs. -/
def scenario : Externals where
  ListByOrg := fun org page =>
    if org = "acme" then
      if page = 0 then .ok ([acmeRepo "A", acmeRepo "B", acmeRepo "C"], 0) else .ok ([], 0)
    else .error (.msg "404 Not Found")
  GetContents := fun _ name _ =>
    if name = "A" then (some (fileOf "* @acme/core"), none)
    else if name = "C" then (some (fileOf "* @acme/ghosts"), none)
    else if name = "D" then (some (fileOf "[broken"), none)
    else (none, some (.msg "404 Not Found"))
  GetTeamBySlug := fun _ slug => if slug = "core" then none else some (.msg "404 Not Found")
  GetContent := fun c =>
    match c with
    | some rc => .ok (rc.Content.getD "")
    | none => .error (.msg "no content")
  ParseFile := fun raw =>
    if raw = "* @acme/core" then .ok (oneTeam "acme/core")
    else if raw = "* @acme/ghosts" then .ok (oneTeam "acme/ghosts")
    else .error (.msg "parse error")
  NumCPU := 2

/-- A rule set that repeats team references and mixes in other owners. -/
def mixedRules : Ruleset :=
  [ { Owners := [ { Value := "acme/core", Type_ := "team" },
                  { Value := "bob", Type_ := "username" },
                  { Value := "acme/core", Type_ := "team" } ] },
    { Owners := [ { Value := "acme/core", Type_ := "team" },
                  { Value := "a@b.io", Type_ := "email" } ] },
    { Owners := [ { Value := "acme/core", Type_ := "team" } ] } ]

/-! ## Lemmas on `buildReport` -/

theorem buildReportLoop_drained (r : CodeownersReport) (fs : List codeownersFetch) :
    buildReportLoop r (drained fs) = AggPc.sending
      { Missing := r.Missing ++ (fs.filter isMissing).map codeownersFetch.Repo,
        Invalid := r.Invalid,
        Present := r.Present ++ (fs.filter isPresent).map codeownersFetch.Repo } := by
  induction fs generalizing r with
  | nil => simp [drained, buildReportLoop, buildReportStep]
  | cons f fs ih =>
    have ih2 := fun r => ih r
    simp only [drained] at ih2
    simp only [drained, List.map_cons, List.cons_append, buildReportLoop, buildReportStep]
    cases hE : f.Err <;> cases hV : f.IsValid <;>
      simp [ih2, isMissing, isPresent, hE, hV]

theorem specFold_eq (fs : List codeownersFetch) :
    specFold fs =
      { Missing := (fs.filter isMissing).map codeownersFetch.Repo,
        Invalid := [],
        Present := (fs.filter isPresent).map codeownersFetch.Repo } := by
  induction fs with
  | nil => rfl
  | cons f fs ih =>
    simp only [specFold, ih]
    cases hE : f.Err <;> cases hV : f.IsValid <;>
      simp [isMissing, isPresent, hE, hV]

theorem buildReport_drained (fs : List codeownersFetch) :
    buildReport (drained fs) = AggPc.sending
      { Missing := (fs.filter isMissing).map codeownersFetch.Repo,
        Invalid := [],
        Present := (fs.filter isPresent).map codeownersFetch.Repo } := by
  simp [buildReport, buildReportLoop_drained, emptyReport]

theorem isMissing_xor_isPresent (f : codeownersFetch) :
    isPresent f = !isMissing f := by
  cases hE : f.Err <;> cases hV : f.IsValid <;> simp [isMissing, isPresent, hE, hV]

theorem report_perm (fs : List codeownersFetch) :
    (((fs.filter isMissing).map codeownersFetch.Repo) ++ [] ++ ((fs.filter isPresent).map codeownersFetch.Repo)).Perm
      (fs.map codeownersFetch.Repo) := by
  have hP : isPresent = fun f => !isMissing f := funext isMissing_xor_isPresent
  rw [List.append_nil, ← List.map_append, hP]
  exact (List.filter_append_perm isMissing fs).map _

/-! ## Claims on `buildReport` -/

/-- C1. When `buildReport` receives the outcomes `fs` and then sees its input
closed, without the context being done, it reaches `valStream <- r` with `r` the
fold of the specification: `Missing` holds the items of the outcomes with an
error or with `IsValid = false`, in the order received, `Present` those of the
outcomes with no error and `IsValid = true`, in the order received, and
`Invalid` is empty. -/
theorem buildReport_eq_specFold (fs : List codeownersFetch) :
    buildReport (drained fs) = AggPc.sending (specFold fs) ∧
    (specFold fs).Missing =
      (fs.filter (fun f => f.Err.isSome || !f.IsValid)).map codeownersFetch.Repo ∧
    (specFold fs).Present =
      (fs.filter (fun f => f.Err.isNone && f.IsValid)).map codeownersFetch.Repo ∧
    (specFold fs).Invalid = [] := by
  rw [buildReport_drained, specFold_eq]
  exact ⟨rfl, rfl, rfl, rfl⟩

/-- C2. When the items of the outcomes `fs` are pairwise distinct and
`buildReport` drains `fs` to closure, the report `r` it sends partitions the
items: the three lists together are a rearrangement of the input items (none
dropped, none added), no item occurs twice in them, every input item occurs in
exactly one list and once, and the three lengths add up to the number of
outcomes. -/
theorem buildReport_partition (fs : List codeownersFetch)
    (hd : (fs.map codeownersFetch.Repo).Nodup) :
    ∃ r, buildReport (drained fs) = AggPc.sending r ∧
      (r.Missing ++ r.Invalid ++ r.Present).Perm (fs.map codeownersFetch.Repo) ∧
      (r.Missing ++ r.Invalid ++ r.Present).Nodup ∧
      (∀ a, a ∈ r.Missing ++ r.Invalid ++ r.Present ↔ a ∈ fs.map codeownersFetch.Repo) ∧
      (∀ a ∈ fs.map codeownersFetch.Repo,
        r.Missing.count a + r.Invalid.count a + r.Present.count a = 1) ∧
      r.Missing.length + r.Invalid.length + r.Present.length = fs.length := by
  refine ⟨_, buildReport_drained fs, ?_⟩
  have hp := report_perm fs
  have hn := hp.nodup_iff.mpr hd
  refine ⟨hp, hn, fun a => hp.mem_iff, ?_, ?_⟩
  · intro a ha
    have hc := List.count_eq_one_of_mem hn (hp.mem_iff.mpr ha)
    simpa [List.count_append] using hc
  · have hl := hp.length_eq
    simpa [List.length_append] using hl

/-- Witness of C2: three outcomes on three distinct repositories. -/
theorem buildReport_partition_witness :
    ∃ r, buildReport (drained
        [ { Repo := ⟨none, some "a"⟩, Contents := none, IsValid := true, Err := none },
          { Repo := ⟨none, some "b"⟩, Contents := none, IsValid := false,
            Err := some (.msg "404") },
          { Repo := ⟨none, some "c"⟩, Contents := none, IsValid := false, Err := none } ])
        = AggPc.sending r ∧
      (r.Missing ++ r.Invalid ++ r.Present).Perm
        [⟨none, some "a"⟩, ⟨none, some "b"⟩, ⟨none, some "c"⟩] ∧
      (r.Missing ++ r.Invalid ++ r.Present).Nodup ∧
      (∀ a, a ∈ r.Missing ++ r.Invalid ++ r.Present ↔
        a ∈ [(⟨none, some "a"⟩ : Repository), ⟨none, some "b"⟩, ⟨none, some "c"⟩]) ∧
      (∀ a ∈ [(⟨none, some "a"⟩ : Repository), ⟨none, some "b"⟩, ⟨none, some "c"⟩],
        r.Missing.count a + r.Invalid.count a + r.Present.count a = 1) ∧
      r.Missing.length + r.Invalid.length + r.Present.length = 3 :=
  buildReport_partition _ (by decide)

/-- C10. For outcomes `fs` and any rearrangement `gs` of them, the reports
`buildReport` sends after draining either order have the same members: the
two `Missing` lists are rearrangements of each other, so are the two `Present`
lists, and `Invalid` is empty in both. -/
theorem buildReport_perm (fs gs : List codeownersFetch) (h : fs.Perm gs) :
    ∃ r q, buildReport (drained fs) = AggPc.sending r ∧
      buildReport (drained gs) = AggPc.sending q ∧
      r.Missing.Perm q.Missing ∧ r.Present.Perm q.Present ∧
      r.Invalid = [] ∧ q.Invalid = [] :=
  ⟨_, _, buildReport_drained fs, buildReport_drained gs,
    (h.filter isMissing).map _, (h.filter isPresent).map _, rfl, rfl⟩

/-- Witness of C10: two outcomes and their swap. -/
theorem buildReport_perm_witness :
    ∃ r q,
      buildReport (drained
        [ { Repo := ⟨none, some "a"⟩, Contents := none, IsValid := true, Err := none },
          { Repo := ⟨none, some "b"⟩, Contents := none, IsValid := false, Err := none } ])
        = AggPc.sending r ∧
      buildReport (drained
        [ { Repo := ⟨none, some "b"⟩, Contents := none, IsValid := false, Err := none },
          { Repo := ⟨none, some "a"⟩, Contents := none, IsValid := true, Err := none } ])
        = AggPc.sending q ∧
      r.Missing.Perm q.Missing ∧ r.Present.Perm q.Present ∧
      r.Invalid = [] ∧ q.Invalid = [] :=
  buildReport_perm _ _ (List.Perm.swap _ _ [])

/-! ## Claims on `validateCodeowners` -/

/-- C5. A fetch result `f` that a worker of the fetch pool builds for the
repository `r` and that carries a fetch error `e` takes the validator from its
`select` to `valStream <- out` with `out` the same record: the item is `r`,
`IsValid` is false, the error is `e`; and the step issues no external call at
all (no `GetContent`, no parse, no team lookup). -/
theorem validateStep_fetch_error (x : Externals) (r : Repository) (f : codeownersFetch)
    (cs : List Call) (e : Error) (hf : fetchOne x r = some (f, cs))
    (he : f.Err = some e) :
    ∃ out, validateStep x (Recv.value f) = (ValPc.sending out, []) ∧
      out = f ∧ out.Repo = r ∧ out.IsValid = false ∧ out.Err = some e := by
  refine ⟨f, ?_, rfl, ?_, ?_, he⟩
  · simp [validateStep, he]
  all_goals
    unfold fetchOne at hf
    split at hf
    · exact absurd hf (by simp)
    · split at hf
      · simp only [Option.some.injEq, Prod.mk.injEq] at hf
        rw [← hf.1]
      · exact absurd hf (by simp)

/-- Witness of C5: the repository `B` of the scenario, whose fetch fails. -/
theorem validateStep_fetch_error_witness :
    ∃ out, validateStep scenario (Recv.value
        { Repo := acmeRepo "B", Contents := none, IsValid := false,
          Err := some (.msg "404 Not Found") }) = (ValPc.sending out, []) ∧
      out = { Repo := acmeRepo "B", Contents := none, IsValid := false,
              Err := some (.msg "404 Not Found") } ∧
      out.Repo = acmeRepo "B" ∧ out.IsValid = false ∧
      out.Err = some (.msg "404 Not Found") :=
  validateStep_fetch_error scenario (acmeRepo "B") _
    [Call.getContents "acme" "B" codeownersPath] (.msg "404 Not Found") (by decide) (by decide)

/-- C6. A fetch result `f` that a worker builds for the repository `r`, that
carries no fetch error, and whose content `GetContent` returns as `raw` while
`ParseFile raw` fails, takes the validator to `valStream <- out` with the same
item, `IsValid` false and no error; the only external calls of the step are
`GetContent` and the parse: no team lookup. -/
theorem validateStep_parse_failure (x : Externals) (r : Repository) (f : codeownersFetch)
    (cs : List Call) (raw : String) (e : Error) (hf : fetchOne x r = some (f, cs))
    (he : f.Err = none) (hc : x.GetContent f.Contents = Except.ok raw)
    (hp : x.ParseFile raw = Except.error e) :
    ∃ out calls, validateStep x (Recv.value f) = (ValPc.sending out, calls) ∧
      out.Repo = r ∧ out.IsValid = false ∧ out.Err = none ∧
      calls = [Call.getContent f.Contents, Call.parseFile raw] ∧ lookupsOf calls = [] := by
  refine ⟨f, _, ?_, ?_, ?_, he, rfl, ?_⟩
  · simp [validateStep, he, hc, hp]
  · unfold fetchOne at hf
    split at hf
    · exact absurd hf (by simp)
    · split at hf
      · simp only [Option.some.injEq, Prod.mk.injEq] at hf
        rw [← hf.1]
      · exact absurd hf (by simp)
  · unfold fetchOne at hf
    split at hf
    · exact absurd hf (by simp)
    · split at hf
      · simp only [Option.some.injEq, Prod.mk.injEq] at hf
        rw [← hf.1]
      · exact absurd hf (by simp)
  · simp [lookupsOf]

/-- Witness of C6: the repository `D` of the scenario, whose file does not parse. -/
theorem validateStep_parse_failure_witness :
    ∃ out calls, validateStep scenario (Recv.value
        { Repo := acmeRepo "D", Contents := some (fileOf "[broken"), IsValid := false,
          Err := none }) = (ValPc.sending out, calls) ∧
      out.Repo = acmeRepo "D" ∧ out.IsValid = false ∧ out.Err = none ∧
      calls = [Call.getContent (some (fileOf "[broken")), Call.parseFile "[broken"] ∧
      lookupsOf calls = [] :=
  validateStep_parse_failure scenario (acmeRepo "D") _
    [Call.getContents "acme" "D" codeownersPath] "[broken" (.msg "parse error")
    (by decide) (by decide) rfl rfl

/-! ## Lemmas on `codeownersExist` -/

theorem teamCheck_neverDone_of_args (x : Externals) (k org teamName : String)
    (h : teamArgs k = some (org, teamName)) :
    teamCheck x false k =
      match x.GetTeamBySlug org teamName with
      | some _ => (TeamCheck.returns false, [Call.getTeamBySlug org teamName])
      | none => (TeamCheck.continues, [Call.getTeamBySlug org teamName]) := by
  simp [teamCheck, h]

theorem codeownersExistLoop_neverDone (x : Externals) (ks : List String) (i : Nat)
    (hs : ∀ k ∈ ks, (teamArgs k).isSome = true) :
    ∃ b, (codeownersExistLoop x neverDone i ks).result = some b ∧
      (b = true ↔ ∀ k ∈ ks, lookupSucceeds x k) := by
  induction ks generalizing i with
  | nil => exact ⟨true, rfl, by simp⟩
  | cons k ks ih =>
    have hk := hs k (List.mem_cons_self _ _)
    obtain ⟨⟨org, teamName⟩, ha⟩ := Option.isSome_iff_exists.mp hk
    have hrest : ∀ k ∈ ks, (teamArgs k).isSome = true :=
      fun k1 h1 => hs k1 (List.mem_cons_of_mem _ h1)
    obtain ⟨b, hb, hiff⟩ := ih (i + 1) hrest
    cases hl : x.GetTeamBySlug org teamName with
    | some err =>
      refine ⟨false, ?_, ?_⟩
      · simp [codeownersExistLoop, neverDone, teamCheck_neverDone_of_args x k org teamName ha, hl]
      · simp only [Bool.false_eq_true, false_iff]
        intro hall
        obtain ⟨o, t, h1, h2⟩ := hall k (List.mem_cons_self _ _)
        rw [ha] at h1
        simp only [Option.some.injEq, Prod.mk.injEq] at h1
        rw [← h1.1, ← h1.2, hl] at h2
        exact absurd h2 (by simp)
    | none =>
      refine ⟨b, ?_, ?_⟩
      · simp [codeownersExistLoop, neverDone, teamCheck_neverDone_of_args x k org teamName ha, hl,
          hb]
      · rw [hiff]
        constructor
        · intro hall k1 h1
          rcases List.mem_cons.mp h1 with rfl | h1
          · exact ⟨org, teamName, ha, hl⟩
          · exact hall k1 h1
        · intro hall k1 h1
          exact hall k1 (List.mem_cons_of_mem _ h1)

theorem mem_teamValues (rules : Ruleset) (v : String) :
    v ∈ teamValues rules ↔
      ∃ rule ∈ rules, ∃ o ∈ rule.Owners, o.Type_ = "team" ∧ o.Value = v := by
  simp only [teamValues, List.mem_map, List.mem_filter, List.mem_flatMap, decide_eq_true_eq]
  constructor
  · rintro ⟨o, ⟨⟨rule, hr, ho⟩, ht⟩, hv⟩
    exact ⟨rule, hr, o, ho, ht, hv⟩
  · rintro ⟨rule, hr, o, ho, ht, hv⟩
    exact ⟨o, ⟨⟨rule, hr, ho⟩, ht⟩, hv⟩

theorem mem_keyOrder (rules : Ruleset) (ks : List String) (hk : KeyOrder rules ks)
    (v : String) : v ∈ ks ↔ v ∈ teamValues rules := by
  unfold KeyOrder teamKeys at hk
  rw [hk.mem_iff, List.mem_dedup]

theorem nodup_keyOrder (rules : Ruleset) (ks : List String) (hk : KeyOrder rules ks) :
    ks.Nodup := by
  unfold KeyOrder teamKeys at hk
  exact hk.nodup_iff.mpr (List.nodup_dedup _)

/-- The keys for which a lookup was issued are the first keys of the iteration,
one call each, in order. -/
theorem codeownersExistLoop_calls (x : Externals) (done : Nat → Bool) (ks : List String)
    (i : Nat) :
    ∃ issued, issued <+: ks ∧
      List.Forall₂ (fun k c => callOf k = some c) issued
        (codeownersExistLoop x done i ks).calls := by
  induction ks generalizing i with
  | nil => exact ⟨[], List.prefix_refl _, by simp [codeownersExistLoop]⟩
  | cons k ks ih =>
    cases hd : done i with
    | true =>
      exact ⟨[], List.nil_prefix, by simp [codeownersExistLoop, teamCheck, hd]⟩
    | false =>
      cases ha : teamArgs k with
      | none =>
        exact ⟨[], List.nil_prefix, by simp [codeownersExistLoop, teamCheck, hd, ha]⟩
      | some p =>
        obtain ⟨org, teamName⟩ := p
        cases hl : x.GetTeamBySlug org teamName with
        | some err =>
          refine ⟨[k], ?_, ?_⟩
          · simp
          · simp [codeownersExistLoop, teamCheck, hd, ha, hl, callOf]
        | none =>
          obtain ⟨issued, hpre, hall⟩ := ih (i + 1)
          refine ⟨k :: issued, ?_, ?_⟩
          · exact List.prefix_cons_inj k |>.mpr hpre
          · simp only [codeownersExistLoop, teamCheck, hd, ha, hl, Bool.false_eq_true,
              if_false, List.singleton_append]
            exact List.Forall₂.cons (by simp [callOf, ha]) hall

theorem codeownersExistLoop_all (x : Externals) (ks : List String) (i : Nat)
    (hall : ∀ k ∈ ks, lookupSucceeds x k) :
    (codeownersExistLoop x neverDone i ks).result = some true ∧
      List.Forall₂ (fun k c => callOf k = some c) ks
        (codeownersExistLoop x neverDone i ks).calls := by
  induction ks generalizing i with
  | nil => simp [codeownersExistLoop]
  | cons k ks ih =>
    obtain ⟨org, teamName, ha, hl⟩ := hall k (List.mem_cons_self _ _)
    obtain ⟨h1, h2⟩ := ih (i + 1) (fun k1 hk1 => hall k1 (List.mem_cons_of_mem _ hk1))
    constructor
    · simp [codeownersExistLoop, neverDone, teamCheck_neverDone_of_args x k org teamName ha, hl]
      simpa [neverDone] using h1
    · simp only [codeownersExistLoop, neverDone, teamCheck_neverDone_of_args x k org teamName ha,
        hl, List.singleton_append]
      exact List.Forall₂.cons (by simp [callOf, ha]) h2

/-! ## Claims on `codeownersExist` -/

/-- C4. For a parsed rule set (every team reference splits at a slash), any
behaviour of the team lookup and any order in which the map iteration visits
the keys, a call of `codeownersExist` whose context is never done returns, and
it returns true exactly when the lookup reports no error for every owner of
type "team" in any rule. Owners of other types do not occur in the condition,
and a rule set without team owners yields true. -/
theorem codeownersExist_iff (x : Externals) (rules : Ruleset) (ks : List String)
    (hk : KeyOrder rules ks) (hs : TeamRefsSplit rules) :
    ∃ b, (codeownersExist x neverDone rules ks).result = some b ∧
      (b = true ↔
        ∀ rule ∈ rules, ∀ o ∈ rule.Owners, o.Type_ = "team" → lookupSucceeds x o.Value) ∧
      ((∀ rule ∈ rules, ∀ o ∈ rule.Owners, o.Type_ ≠ "team") → b = true) := by
  have hsplit : ∀ k ∈ ks, (teamArgs k).isSome = true :=
    fun k h => hs k ((mem_keyOrder rules ks hk k).mp h)
  obtain ⟨b, hb, hiff⟩ := codeownersExistLoop_neverDone x ks 0 hsplit
  have hiff2 : b = true ↔
      ∀ rule ∈ rules, ∀ o ∈ rule.Owners, o.Type_ = "team" → lookupSucceeds x o.Value := by
    rw [hiff]
    constructor
    · intro hall rule hr o ho ht
      exact hall o.Value ((mem_keyOrder rules ks hk _).mpr
        ((mem_teamValues rules _).mpr ⟨rule, hr, o, ho, ht, rfl⟩))
    · intro hall k hkm
      obtain ⟨rule, hr, o, ho, ht, hv⟩ :=
        (mem_teamValues rules k).mp ((mem_keyOrder rules ks hk k).mp hkm)
      exact hv ▸ hall rule hr o ho ht
  refine ⟨b, hb, hiff2, ?_⟩
  intro hno
  exact hiff2.mpr (fun rule hr o ho ht => absurd ht (hno rule hr o ho))

/-- Witness of C4: the rule set `mixedRules`, whose only team exists. -/
theorem codeownersExist_iff_witness :
    ∃ b, (codeownersExist scenario neverDone mixedRules ["acme/core"]).result = some b ∧
      (b = true ↔
        ∀ rule ∈ mixedRules, ∀ o ∈ rule.Owners, o.Type_ = "team" →
          lookupSucceeds scenario o.Value) ∧
      ((∀ rule ∈ mixedRules, ∀ o ∈ rule.Owners, o.Type_ ≠ "team") → b = true) :=
  codeownersExist_iff scenario mixedRules ["acme/core"] (by decide) (by decide)

/-- C9. In one call of `codeownersExist`, whatever the cancellation and the
lookup do, the lookups issued are one per key of an initial stretch `issued` of
the iteration over the distinct team references: no reference is looked up
twice, however often rules and owners repeat it, and the number of lookups is
at most the number of distinct references. When every lookup succeeds and the
context is never done, the lookups are one per distinct reference, all of them. -/
theorem codeownersExist_lookups (x : Externals) (done : Nat → Bool) (rules : Ruleset)
    (ks : List String) (hk : KeyOrder rules ks) :
    (∃ issued, issued <+: ks ∧ issued.Nodup ∧ (∀ k ∈ issued, k ∈ teamValues rules) ∧
      List.Forall₂ (fun k c => callOf k = some c) issued
        (codeownersExist x done rules ks).calls) ∧
    (codeownersExist x done rules ks).calls.length ≤ (teamValues rules).dedup.length ∧
    ((∀ v ∈ teamValues rules, lookupSucceeds x v) →
      (codeownersExist x neverDone rules ks).result = some true ∧
      List.Forall₂ (fun k c => callOf k = some c) ks
        (codeownersExist x neverDone rules ks).calls ∧
      (codeownersExist x neverDone rules ks).calls.length =
        (teamValues rules).dedup.length) := by
  have hlen : ks.length = (teamValues rules).dedup.length := List.Perm.length_eq hk
  obtain ⟨issued, hpre, hall⟩ := codeownersExistLoop_calls x done ks 0
  refine ⟨⟨issued, hpre, ?_, ?_, hall⟩, ?_, ?_⟩
  · exact (nodup_keyOrder rules ks hk).sublist hpre.sublist
  · intro k hki
    exact (mem_keyOrder rules ks hk k).mp (hpre.subset hki)
  · unfold codeownersExist
    rw [← hall.length_eq, ← hlen]
    exact hpre.length_le
  · intro hsucc
    obtain ⟨h1, h2⟩ := codeownersExistLoop_all x ks 0
      (fun k hkm => hsucc k ((mem_keyOrder rules ks hk k).mp hkm))
    refine ⟨h1, h2, ?_⟩
    unfold codeownersExist
    rw [← h2.length_eq, hlen]

/-- Witness of C9: `mixedRules` names the team `acme/core` four times; one lookup. -/
theorem codeownersExist_lookups_witness :
    (codeownersExist scenario neverDone mixedRules ["acme/core"]).calls.length ≤ 1 ∧
    (codeownersExist scenario neverDone mixedRules ["acme/core"]).calls =
      [Call.getTeamBySlug "acme" "core"] :=
  ⟨(codeownersExist_lookups scenario neverDone mixedRules ["acme/core"] (by decide)).2.1,
    by decide⟩

/-! ## An invariant of the pipeline -/

theorem buildReportStep_reportOf (fs : List codeownersFetch) (f : codeownersFetch) :
    buildReportStep (reportOf fs) (Recv.value f) = AggPc.selecting (reportOf (fs ++ [f])) := by
  cases hE : f.Err <;> cases hV : f.IsValid <;>
    simp [buildReportStep, reportOf, isMissing, isPresent, hE, hV]

theorem inv_init (x : Externals) (org : String) : Inv x org initSys := by
  constructor <;> simp [initSys]

theorem inv_frame (x : Externals) (org : String) (s t : Sys) (hi : Inv x org s)
    (ha : t.agg = s.agg) (hl : t.aggLog = s.aggLog)
    (hv : s.val = some ValPc.exited → t.val = some ValPc.exited)
    (hc : t.coord = s.coord) (hd : s.callerDone = true → t.callerDone = true)
    (hs : ∀ e, t.scan = some (ScanPc.sendingErr e) →
      s.scan = some (ScanPc.sendingErr e) ∨ ∃ page, x.ListByOrg org page = Except.error e) :
    Inv x org t := by
  obtain ⟨h1, h2, h3, h4, h5, h6, h7⟩ := hi
  constructor
  · intro r hr
    rw [hl]
    exact h1 r (ha ▸ hr)
  · intro r hr
    rw [hl]
    exact ⟨(h2 r (ha ▸ hr)).1, hv (h2 r (ha ▸ hr)).2⟩
  · intro hr
    have h := h3 (ha ▸ hr)
    simp only [Sys.coordCtxDone, hc, Bool.or_eq_true] at h ⊢
    exact h.imp hd id
  · intro e he
    rcases hs e he with h | h
    · exact h4 e h
    · exact h
  · intro c err hr
    have h := h5 c err (hc ▸ hr)
    simp only [ReturnShape, hl, ha] at h ⊢
    rcases h with ⟨a, b, c1, d⟩ | h | ⟨a, b, c1⟩ | ⟨a, b, c1⟩
    · exact Or.inl ⟨a, b, hv c1, d⟩
    · exact Or.inr (Or.inl h)
    · exact Or.inr (Or.inr (Or.inl ⟨a, b, hd c1⟩))
    · exact Or.inr (Or.inr (Or.inr ⟨a, b, hd c1⟩))
  · intro hn
    rw [hl]
    exact h6 (ha ▸ hn)
  · rw [ha, hc]
    exact h7

theorem returnShape_mono (x : Externals) (org : String) (s t : Sys) (c : CodeownersReport)
    (err : Option Error) (h : ReturnShape x org s c err)
    (hfirst : s.agg = some AggPc.exited → s.val = some ValPc.exited →
      t.aggLog = s.aggLog ∧ t.val = some ValPc.exited ∧ t.agg = some AggPc.exited)
    (hd : s.callerDone = true → t.callerDone = true) : ReturnShape x org t c err := by
  rcases h with ⟨a, b, c1, d⟩ | h | ⟨a, b, c1⟩ | ⟨a, b, c1⟩
  · obtain ⟨e1, e2, e3⟩ := hfirst d c1
    exact Or.inl ⟨a, e1 ▸ b, e2, e3⟩
  · exact Or.inr (Or.inl h)
  · exact Or.inr (Or.inr (Or.inl ⟨a, b, hd c1⟩))
  · exact Or.inr (Or.inr (Or.inr ⟨a, b, hd c1⟩))

theorem scanTop_sendingErr (x : Externals) (org : String) (d : Bool) (page : Nat) (e : Error)
    (h : (scanTop x org d page).1 = ScanPc.sendingErr e) :
    x.ListByOrg org page = Except.error e := by
  unfold scanTop at h
  split at h
  · simp at h
  · split at h
    · simp only [ScanPc.sendingErr.injEq] at h
      rw [← h]
      assumption
    · rename_i repos next _
      simp only [scanAfter] at h
      split at h
      · split at h <;> simp at h
      · simp at h

theorem scanAfter_ne_sendingErr (rs : List Repository) (next : Nat) (e : Error) :
    scanAfter rs next ≠ ScanPc.sendingErr e := by
  unfold scanAfter
  split
  · split <;> simp
  · simp

theorem step_inv_callerCancel (x : Externals) (org : String) (s t : Sys)
    (h : step x org s Action.callerCancel = some t) (hi : Inv x org s) : Inv x org t := by
  unfold step at h
  split at h
  · simp at h
  · simp only at h
    split at h
    · simp at h
    · simp only [Option.some.injEq] at h
      subst h
      exact inv_frame x org s _ hi rfl rfl id rfl (fun _ => rfl) (fun e he => Or.inl he)

theorem step_inv_scanStep (x : Externals) (org : String) (s t : Sys)
    (h : step x org s Action.scanStep = some t) (hi : Inv x org s) : Inv x org t := by
  unfold step at h
  split at h
  · simp at h
  · simp only at h
    split at h
    · simp only [Option.some.injEq] at h
      subst h
      exact inv_frame x org s _ hi rfl rfl id rfl id
        (fun e he => Or.inr ⟨_, scanTop_sendingErr x org _ _ e (Option.some.inj he)⟩)
    · split at h
      · simp only [Option.some.injEq] at h
        subst h
        exact inv_frame x org s _ hi rfl rfl id rfl id (fun e he => Or.inl he)
      · simp at h
    · simp at h

theorem step_inv_workerDone (x : Externals) (org : String) (s t : Sys) (i : Nat)
    (h : step x org s (Action.workerDone i) = some t) (hi : Inv x org s) : Inv x org t := by
  unfold step at h
  split at h
  · simp at h
  · simp only at h
    split at h
    · split at h
      · simp only [Option.some.injEq] at h
        subst h
        exact inv_frame x org s _ hi rfl rfl id rfl id (fun e he => Or.inl he)
      · simp at h
    · simp at h

theorem step_inv_workerRecv (x : Externals) (org : String) (s t : Sys) (i : Nat)
    (h : step x org s (Action.workerRecv i) = some t) (hi : Inv x org s) : Inv x org t := by
  unfold step at h
  split at h
  · simp at h
  · simp only at h
    split at h
    · split at h
      · simp only [Option.some.injEq] at h
        subst h
        exact inv_frame x org s _ hi rfl rfl id rfl id
          (fun e he => absurd (Option.some.inj he) (scanAfter_ne_sendingErr _ _ e))
      · simp only [Option.some.injEq] at h
        subst h
        exact inv_frame x org s _ hi rfl rfl id rfl id (fun e he => Or.inl he)
    · simp at h

theorem step_inv_workerClosed (x : Externals) (org : String) (s t : Sys) (i : Nat)
    (h : step x org s (Action.workerClosed i) = some t) (hi : Inv x org s) : Inv x org t := by
  unfold step at h
  split at h
  · simp at h
  · simp only at h
    split at h
    · simp only [Option.some.injEq] at h
      subst h
      exact inv_frame x org s _ hi rfl rfl id rfl id (fun e he => Or.inl he)
    · simp at h

theorem step_inv_closeFetch (x : Externals) (org : String) (s t : Sys)
    (h : step x org s Action.closeFetch = some t) (hi : Inv x org s) : Inv x org t := by
  unfold step at h
  split at h
  · simp at h
  · simp only at h
    split at h
    · simp only [Option.some.injEq] at h
      subst h
      exact inv_frame x org s _ hi rfl rfl id rfl id (fun e he => Or.inl he)
    · simp at h

theorem step_inv_valDone (x : Externals) (org : String) (s t : Sys)
    (h : step x org s Action.valDone = some t) (hi : Inv x org s) : Inv x org t := by
  unfold step at h
  split at h
  · simp at h
  · simp only at h
    split at h
    · split at h
      · simp only [Option.some.injEq] at h
        subst h
        exact inv_frame x org s _ hi rfl rfl (fun _ => rfl) rfl id (fun e he => Or.inl he)
      · simp at h
    · simp at h

theorem step_inv_valRecv (x : Externals) (org : String) (s t : Sys) (i : Nat)
    (h : step x org s (Action.valRecv i) = some t) (hi : Inv x org s) : Inv x org t := by
  unfold step at h
  split at h
  · simp at h
  · simp only at h
    split at h
    · rename_i hv _
      simp only [Option.some.injEq] at h
      subst h
      exact inv_frame x org s _ hi rfl rfl (fun he => by rw [hv] at he; simp at he) rfl id
        (fun e he => Or.inl he)
    · simp at h

theorem step_inv_valClosed (x : Externals) (org : String) (s t : Sys)
    (h : step x org s Action.valClosed = some t) (hi : Inv x org s) : Inv x org t := by
  unfold step at h
  split at h
  · simp at h
  · simp only at h
    split at h
    · split at h
      · simp only [Option.some.injEq] at h
        subst h
        exact inv_frame x org s _ hi rfl rfl (fun _ => rfl) rfl id (fun e he => Or.inl he)
      · simp at h
    · simp at h

theorem step_inv_valCheck (x : Externals) (org : String) (s t : Sys) (k : String)
    (h : step x org s (Action.valCheck k) = some t) (hi : Inv x org s) : Inv x org t := by
  unfold step at h
  split at h
  · simp at h
  · simp only at h
    split at h
    · rename_i hv
      split at h
      · split at h
        · simp only [Option.some.injEq] at h
          subst h
          exact inv_frame x org s _ hi rfl rfl (fun he => by rw [hv] at he; simp at he) rfl id
            (fun e he => Or.inl he)
        · simp only [Option.some.injEq] at h
          subst h
          exact inv_frame x org s _ hi rfl rfl id rfl id (fun e he => Or.inl he)
      · simp at h
    · simp at h

theorem step_inv_coordAdvance (x : Externals) (org : String) (s t : Sys)
    (h : step x org s Action.coordAdvance = some t) (hi : Inv x org s) : Inv x org t := by
  obtain ⟨h1, h2, h3, h4, h5, h6, h7⟩ := hi
  unfold step at h
  split at h
  · simp at h
  · simp only at h
    split at h <;> simp only [Option.some.injEq, reduceCtorEq] at h <;> (try subst h)
    case h_6 hc =>
      have hnone : s.agg = none := by simpa [hc] using h7
      have hn := h6 hnone
      constructor
      · intro r hr
        simp only [Option.some.injEq, AggPc.selecting.injEq] at hr
        rw [← hr]
        simp only [hn]
        rfl
      · intro r hr
        simp at hr
      · intro hr
        simp at hr
      · exact h4
      · intro c err hr
        simp at hr
      · intro hr
        simp at hr
      · exact Or.inr (Or.inl rfl)
    all_goals
      rename_i hc
      have hnone : s.agg = none := by simpa [hc] using h7
      constructor
      · exact h1
      · intro r hr
        simp only [hnone] at hr
        simp at hr
      · intro hr
        simp only [hnone] at hr
        simp at hr
      · first
          | exact h4
          | (intro e he
             simp at he)
      · intro c err hr
        simp at hr
      · exact h6
      · exact Or.inl hnone

theorem step_inv_coordDone (x : Externals) (org : String) (s t : Sys)
    (h : step x org s Action.coordDone = some t) (hi : Inv x org s) : Inv x org t := by
  obtain ⟨h1, h2, h3, h4, h5, h6, h7⟩ := hi
  unfold step at h
  split at h
  · simp at h
  · simp only at h
    split at h
    · split at h
      · rename_i hd
        simp only [Option.some.injEq] at h
        subst h
        constructor
        · exact h1
        · exact h2
        · intro _
          simp [Sys.coordCtxDone, Sys.coordReturns, hd]
        · exact h4
        · intro c err hr
          simp only [Sys.coordReturns, coordReturn, CoordPc.returned.injEq] at hr
          exact Or.inr (Or.inr (Or.inl ⟨hr.1.symm, hr.2.symm, hd⟩))
        · exact h6
        · exact Or.inr (Or.inr ⟨_, _, rfl⟩)
      · simp at h
    · simp at h

theorem step_inv_coordErr (x : Externals) (org : String) (s t : Sys)
    (h : step x org s Action.coordErr = some t) (hi : Inv x org s) : Inv x org t := by
  obtain ⟨h1, h2, h3, h4, h5, h6, h7⟩ := hi
  unfold step at h
  split at h
  · simp at h
  · simp only at h
    split at h
    · rename_i e hc hs
      simp only [Option.some.injEq] at h
      subst h
      obtain ⟨page, hp⟩ := h4 e hs
      constructor
      · exact h1
      · exact h2
      · intro _
        simp [Sys.coordCtxDone, Sys.coordReturns]
      · intro e1 he
        simp at he
      · intro c err hr
        simp only [Sys.coordReturns, coordReturn, CoordPc.returned.injEq] at hr
        exact Or.inr (Or.inl ⟨hr.1.symm, e, page, hp, hr.2.symm⟩)
      · exact h6
      · exact Or.inr (Or.inr ⟨_, _, rfl⟩)
    · simp at h

theorem step_inv_coordResult (x : Externals) (org : String) (s t : Sys)
    (h : step x org s Action.coordResult = some t) (hi : Inv x org s) : Inv x org t := by
  obtain ⟨h1, h2, h3, h4, h5, h6, h7⟩ := hi
  unfold step at h
  split at h
  · simp at h
  · simp only at h
    split at h
    · rename_i r hc ha
      simp only [Option.some.injEq] at h
      subst h
      obtain ⟨hr1, hr2⟩ := h2 r ha
      constructor
      · intro r1 hr
        simp at hr
      · intro r1 hr
        simp at hr
      · intro _
        simp [Sys.coordCtxDone, Sys.coordReturns]
      · exact h4
      · intro c err hr
        simp only [Sys.coordReturns, coordReturn, CoordPc.returned.injEq] at hr
        exact Or.inl ⟨hr.2.symm, hr.1 ▸ hr1, hr2, rfl⟩
      · intro hr
        simp at hr
      · exact Or.inr (Or.inr ⟨_, _, rfl⟩)
    · simp at h

theorem step_inv_coordResultClosed (x : Externals) (org : String) (s t : Sys)
    (h : step x org s Action.coordResultClosed = some t) (hi : Inv x org s) : Inv x org t := by
  obtain ⟨h1, h2, h3, h4, h5, h6, h7⟩ := hi
  unfold step at h
  split at h
  · simp at h
  · simp only at h
    split at h
    · rename_i hc ha
      simp only [Option.some.injEq] at h
      subst h
      have hd : s.callerDone = true := by simpa [Sys.coordCtxDone, hc] using h3 ha
      constructor
      · exact h1
      · exact h2
      · intro _
        simp [Sys.coordCtxDone, Sys.coordReturns]
      · exact h4
      · intro c err hr
        simp only [Sys.coordReturns, coordReturn, CoordPc.returned.injEq] at hr
        exact Or.inr (Or.inr (Or.inr ⟨hr.1.symm, hr.2.symm, hd⟩))
      · exact h6
      · exact Or.inr (Or.inr ⟨_, _, rfl⟩)
    · simp at h

theorem step_inv_aggDone (x : Externals) (org : String) (s t : Sys)
    (h : step x org s Action.aggDone = some t) (hi : Inv x org s) : Inv x org t := by
  obtain ⟨h1, h2, h3, h4, h5, h6, h7⟩ := hi
  unfold step at h
  split at h
  · simp at h
  · simp only at h
    split at h
    · rename_i r ha
      split at h
      · rename_i hd
        simp only [Option.some.injEq] at h
        subst h
        have hb : s.coord = CoordPc.selecting ∨ ∃ c err, s.coord = CoordPc.returned c err := by
          simpa [ha] using h7
        constructor
        · intro r1 hr
          simp [buildReportStep] at hr
        · intro r1 hr
          simp [buildReportStep] at hr
        · intro _
          exact hd
        · exact h4
        · intro c err hr
          exact returnShape_mono x org s _ c err (h5 c err hr)
            (fun he => by rw [ha] at he; simp at he) id
        · intro hr
          simp at hr
        · exact Or.inr hb
      · simp at h
    · simp at h

theorem step_inv_aggRecv (x : Externals) (org : String) (s t : Sys)
    (h : step x org s Action.aggRecv = some t) (hi : Inv x org s) : Inv x org t := by
  obtain ⟨h1, h2, h3, h4, h5, h6, h7⟩ := hi
  unfold step at h
  split at h
  · simp at h
  · simp only at h
    split at h
    · rename_i r f ha hv
      simp only [Option.some.injEq] at h
      subst h
      have hb : s.coord = CoordPc.selecting ∨ ∃ c err, s.coord = CoordPc.returned c err := by
        simpa [ha] using h7
      have hstep := buildReportStep_reportOf s.aggLog f
      rw [← h1 r ha] at hstep
      constructor
      · intro r1 hr
        simp only [hstep, Option.some.injEq, AggPc.selecting.injEq] at hr
        exact hr.symm
      · intro r1 hr
        simp [hstep] at hr
      · intro hr
        simp [hstep] at hr
      · exact h4
      · intro c err hr
        exact returnShape_mono x org s _ c err (h5 c err hr)
          (fun he => by rw [ha] at he; simp at he) id
      · intro hr
        simp [hstep] at hr
      · exact Or.inr hb
    · simp at h

theorem step_inv_aggClosed (x : Externals) (org : String) (s t : Sys)
    (h : step x org s Action.aggClosed = some t) (hi : Inv x org s) : Inv x org t := by
  obtain ⟨h1, h2, h3, h4, h5, h6, h7⟩ := hi
  unfold step at h
  split at h
  · simp at h
  · simp only at h
    split at h
    · rename_i r ha hv
      simp only [Option.some.injEq] at h
      subst h
      have hb : s.coord = CoordPc.selecting ∨ ∃ c err, s.coord = CoordPc.returned c err := by
        simpa [ha] using h7
      constructor
      · intro r1 hr
        simp [buildReportStep] at hr
      · intro r1 hr
        simp only [buildReportStep, Option.some.injEq, AggPc.sending.injEq] at hr
        exact ⟨hr ▸ h1 r ha, hv⟩
      · intro hr
        simp [buildReportStep] at hr
      · exact h4
      · intro c err hr
        exact returnShape_mono x org s _ c err (h5 c err hr)
          (fun he => by rw [ha] at he; simp at he) id
      · intro hr
        simp [buildReportStep] at hr
      · exact Or.inr hb
    · simp at h

theorem step_inv (x : Externals) (org : String) (s t : Sys) (a : Action)
    (h : step x org s a = some t) (hi : Inv x org s) : Inv x org t := by
  cases a with
  | callerCancel => exact step_inv_callerCancel x org s t h hi
  | coordAdvance => exact step_inv_coordAdvance x org s t h hi
  | coordDone => exact step_inv_coordDone x org s t h hi
  | coordErr => exact step_inv_coordErr x org s t h hi
  | coordResult => exact step_inv_coordResult x org s t h hi
  | coordResultClosed => exact step_inv_coordResultClosed x org s t h hi
  | scanStep => exact step_inv_scanStep x org s t h hi
  | workerDone i => exact step_inv_workerDone x org s t i h hi
  | workerRecv i => exact step_inv_workerRecv x org s t i h hi
  | workerClosed i => exact step_inv_workerClosed x org s t i h hi
  | closeFetch => exact step_inv_closeFetch x org s t h hi
  | valDone => exact step_inv_valDone x org s t h hi
  | valRecv i => exact step_inv_valRecv x org s t i h hi
  | valClosed => exact step_inv_valClosed x org s t h hi
  | valCheck k => exact step_inv_valCheck x org s t k h hi
  | aggDone => exact step_inv_aggDone x org s t h hi
  | aggRecv => exact step_inv_aggRecv x org s t h hi
  | aggClosed => exact step_inv_aggClosed x org s t h hi

theorem run_inv (x : Externals) (org : String) (sched : List Action) (s t : Sys)
    (h : run x org s sched = some t) (hi : Inv x org s) : Inv x org t := by
  induction sched generalizing s with
  | nil =>
    simp only [run, Option.some.injEq] at h
    exact h ▸ hi
  | cons a as ih =>
    simp only [run] at h
    split at h
    · rename_i s1 hs
      exact ih s1 h (step_inv x org s s1 a hs hi)
    · simp at h

/-! ## Claims on `CheckForCodeownersFiles` -/

/-- C7, as stated, fails: in the scenario, when the caller's context is done
while the coordinator is in its `select`, `buildReport` may take its
`ctx.Done()` case and close its output without a report, and the coordinator
may take the result case on the closed channel. It then returns the zero report
with the error "unexpected halt in scan" (line 49), which is none of the three
shapes. -/
theorem checkForCodeownersFiles_unexpected_halt :
    ∃ s, run scenario "acme" initSys
        [.coordAdvance, .coordAdvance, .coordAdvance, .coordAdvance, .coordAdvance,
         .coordAdvance, .callerCancel, .aggDone, .coordResultClosed] = some s ∧
      s.coord = CoordPc.returned zeroReport (some (Error.msg "unexpected halt in scan")) ∧
      ¬ SpecShape zeroReport (some (Error.msg "unexpected halt in scan")) :=
  ⟨_, rfl, rfl, by simp [SpecShape]⟩

/-- C7, amended. In every run, for any external collaborators, the pair
returned by `CheckForCodeownersFiles` has one of four shapes: the report of
all outcomes `buildReport` received up to the closure of its input, with no
error; the zero report with the wrapped error of a failed listing call; the
zero report with "cancelled operation", the caller's context being done; the
zero report with "unexpected halt in scan", the caller's context being done.
An error is never returned together with a non-empty report. -/
theorem checkForCodeownersFiles_shapes (x : Externals) (org : String) (sched : List Action)
    (s : Sys) (c : CodeownersReport) (err : Option Error)
    (hr : run x org initSys sched = some s) (hc : s.coord = CoordPc.returned c err) :
    ReturnShape x org s c err ∧
      (err ≠ none → c.Missing = [] ∧ c.Invalid = [] ∧ c.Present = []) := by
  have hshape := (run_inv x org sched initSys s hr (inv_init x org)).returned c err hc
  refine ⟨hshape, fun hne => ?_⟩
  rcases hshape with ⟨a, _⟩ | ⟨a, _⟩ | ⟨a, _⟩ | ⟨a, _⟩
  · exact absurd a hne
  all_goals
    rw [a]
    exact ⟨rfl, rfl, rfl⟩

/-- Witness of C7, amended: listing an organisation that does not exist. -/
theorem checkForCodeownersFiles_shapes_witness :
    ∃ s, run scenario "nobody" initSys
        [.coordAdvance, .coordAdvance, .coordAdvance, .coordAdvance, .coordAdvance,
         .coordAdvance, .scanStep, .coordErr] = some s ∧
      s.coord = CoordPc.returned zeroReport
        (some (Error.wrap "failed to scan: " (Error.msg "404 Not Found"))) ∧
      ReturnShape scenario "nobody" s zeroReport
        (some (Error.wrap "failed to scan: " (Error.msg "404 Not Found"))) ∧
      (some (Error.wrap "failed to scan: " (Error.msg "404 Not Found")) ≠ none →
        zeroReport.Missing = [] ∧ zeroReport.Invalid = [] ∧ zeroReport.Present = []) :=
  ⟨_, rfl, rfl,
    checkForCodeownersFiles_shapes scenario "nobody"
      [.coordAdvance, .coordAdvance, .coordAdvance, .coordAdvance, .coordAdvance,
       .coordAdvance, .scanStep, .coordErr] _ _ _ rfl rfl⟩

/-- C3 fails on the code. In the scenario of the specification, with a caller
that never cancels and a listing that succeeds with `A`, `B`, `C`, there is a
run in which the deferred `cancel` of `fetchCodeowners` (line 106) has run when
the workers reach their `select`: both workers take the `ctx.Done()` case, the
pool closes its output, the validator and `buildReport` see closed inputs, and
`CheckForCodeownersFiles` returns the empty report with a nil error. There is
also a run in which every repository is fetched (`A` and `B` before
`fetchCodeowners` returns) but the deferred `cancel` of `validateCodeowners`
(line 145) has run when the validator checks the team of `A`, so that
`codeownersExist` returns false at its first poll: the report is
`Missing = [A, B, C]`, `Present = []`. -/
theorem scenario_wrong_reports :
    (∃ s, run scenario "acme" initSys
        [.coordAdvance, .coordAdvance, .coordAdvance, .scanStep, .workerDone 0,
         .workerDone 1, .closeFetch, .coordAdvance, .coordAdvance, .coordAdvance,
         .valClosed, .aggClosed, .coordResult] = some s ∧
      s.callerDone = false ∧ s.crashed = false ∧
      s.calls = [Call.listByOrg "acme" 0] ∧
      s.coord = CoordPc.returned { Missing := [], Invalid := [], Present := [] } none) ∧
    (∃ s, run scenario "acme" initSys
        [.coordAdvance, .coordAdvance, .scanStep, .workerRecv 0, .workerRecv 1,
         .coordAdvance, .coordAdvance, .coordAdvance, .coordAdvance, .valRecv 0,
         .valCheck "acme/core", .aggRecv, .valRecv 1, .aggRecv, .workerRecv 0, .valRecv 0,
         .valCheck "acme/ghosts", .aggRecv, .workerClosed 0, .workerClosed 1, .closeFetch,
         .valClosed, .aggClosed, .coordResult] = some s ∧
      s.callerDone = false ∧ s.crashed = false ∧
      s.coord = CoordPc.returned
        { Missing := [acmeRepo "A", acmeRepo "B", acmeRepo "C"], Invalid := [],
          Present := [] } none) :=
  ⟨⟨_, rfl, rfl, rfl, rfl, rfl⟩, ⟨_, rfl, rfl, rfl, rfl⟩⟩

/-- The scenario does admit the run the specification expects: when the
validator checks the team of `A` before `validateCodeowners` returns, the report
is `Present = [A]`, `Missing = [B, C]`, `Invalid = []`. -/
theorem scenario_expected_report_possible :
    ∃ s, run scenario "acme" initSys
        [.coordAdvance, .coordAdvance, .scanStep, .workerRecv 0, .coordAdvance,
         .coordAdvance, .valRecv 0, .valCheck "acme/core", .coordAdvance, .coordAdvance,
         .aggRecv, .workerRecv 1, .valRecv 1, .aggRecv, .workerRecv 0, .valRecv 0,
         .valCheck "acme/ghosts", .aggRecv, .workerClosed 0, .workerClosed 1, .closeFetch,
         .valClosed, .aggClosed, .coordResult] = some s ∧
      s.callerDone = false ∧
      s.coord = CoordPc.returned
        { Missing := [acmeRepo "B", acmeRepo "C"], Invalid := [],
          Present := [acmeRepo "A"] } none :=
  ⟨_, rfl, rfl, rfl⟩

/-! ## An invariant of the fetch pool -/

theorem inflight_set (ws : List WorkerPc) (i : Nat) (w v : WorkerPc)
    (h : ws.get? i = some w) :
    (w.held.toList ++ inflight (ws.set i v)).Perm (v.held.toList ++ inflight ws) := by
  induction ws generalizing i with
  | nil => simp at h
  | cons a as ih =>
    cases i with
    | zero =>
      simp only [List.get?_cons_zero, Option.some.injEq] at h
      subst h
      simp only [List.set_cons_zero, inflight, List.filterMap_cons]
      cases ha : a.held <;> cases hv : v.held <;> simp [List.Perm.swap, List.perm_comm]
    | succ j =>
      simp only [List.get?_cons_succ] at h
      have := ih j h
      simp only [List.set_cons_succ, inflight, List.filterMap_cons] at this ⊢
      cases ha : a.held with
      | none => simpa using this
      | some f =>
        simp only
        refine (List.perm_middle).trans ?_
        refine List.Perm.trans ?_ (List.perm_middle).symm
        exact List.Perm.cons f this

theorem pool_frame (x : Externals) (s t : Sys) (hi : PoolInv x s)
    (h1 : t.fetchLog = s.fetchLog) (h2 : t.workers = s.workers) (h3 : t.scanLog = s.scanLog)
    (h4 : getContentsCalls t.calls = getContentsCalls s.calls)
    (h5 : t.fetchSpawned = s.fetchSpawned) (h6 : t.fetchClosed = s.fetchClosed)
    (h7 : t.coord = CoordPc.start ∨ t.coord = CoordPc.fetchSpawn →
      s.coord = CoordPc.start ∨ s.coord = CoordPc.fetchSpawn) : PoolInv x t := by
  obtain ⟨a, b, c, d, e, f⟩ := hi
  constructor
  · rw [h1, h2, h3]; exact a
  · rw [h3]; exact b
  · rw [h3, h4]; exact c
  · rw [h2, h5, h6]; exact d
  · rw [h5]; exact fun h => e (h7 h)
  · rw [h2, h6]; exact f

theorem getContentsCalls_append (cs ds : List Call) :
    getContentsCalls (cs ++ ds) = getContentsCalls cs ++ getContentsCalls ds := by
  simp [getContentsCalls]

theorem getContentsCalls_scanTop (x : Externals) (org : String) (d : Bool) (page : Nat) :
    getContentsCalls (scanTop x org d page).2 = [] := by
  unfold scanTop
  split
  · rfl
  · split <;> rfl

theorem getContentsCalls_validateStep (x : Externals) (ev : Recv codeownersFetch) :
    getContentsCalls (validateStep x ev).2 = [] := by
  unfold validateStep
  split
  · rfl
  · rfl
  · split
    · rfl
    · split
      · rfl
      · split <;> rfl

theorem getContentsCalls_teamCheck (x : Externals) (d : Bool) (k : String) :
    getContentsCalls (teamCheck x d k).2 = [] := by
  unfold teamCheck
  split
  · rfl
  · split
    · rfl
    · split <;> rfl

theorem getContentsCalls_validateCheck (x : Externals) (d : Bool) (f : codeownersFetch)
    (teams : List String) (k : String) (pc : ValPc) (cs : List Call)
    (h : validateCheck x d f teams k = some (pc, cs)) : getContentsCalls cs = [] := by
  have hk := getContentsCalls_teamCheck x d k
  unfold validateCheck at h
  split at h
  · rename_i heq
    simp only [Option.some.injEq, Prod.mk.injEq] at h
    rw [heq] at hk
    exact h.2 ▸ hk
  · rename_i heq
    simp only [Option.some.injEq, Prod.mk.injEq] at h
    rw [heq] at hk
    exact h.2 ▸ hk
  · simp at h

theorem pool_init (x : Externals) : PoolInv x initSys := by
  constructor <;> simp [initSys, inflight, getContentsCalls]

theorem step_pool_callerCancel (x : Externals) (org : String) (s t : Sys)
    (h : step x org s Action.callerCancel = some t) (hi : PoolInv x s) : PoolInv x t := by
  unfold step at h
  split at h
  · simp at h
  · simp only at h
    split at h
    · simp at h
    · simp only [Option.some.injEq] at h
      subst h
      exact pool_frame x s _ hi rfl rfl rfl rfl rfl rfl id

theorem step_pool_coordDone (x : Externals) (org : String) (s t : Sys)
    (h : step x org s Action.coordDone = some t) (hi : PoolInv x s) : PoolInv x t := by
  unfold step at h
  split at h
  · simp at h
  · simp only at h
    split at h
    · split at h
      · simp only [Option.some.injEq] at h
        subst h
        exact pool_frame x s _ hi rfl rfl rfl rfl rfl rfl
          (fun hc => by simp [Sys.coordReturns] at hc)
      · simp at h
    · simp at h

theorem step_pool_coordErr (x : Externals) (org : String) (s t : Sys)
    (h : step x org s Action.coordErr = some t) (hi : PoolInv x s) : PoolInv x t := by
  unfold step at h
  split at h
  · simp at h
  · simp only at h
    split at h
    · simp only [Option.some.injEq] at h
      subst h
      exact pool_frame x s _ hi rfl rfl rfl rfl rfl rfl
        (fun hc => by simp [Sys.coordReturns] at hc)
    · simp at h

theorem step_pool_coordResult (x : Externals) (org : String) (s t : Sys)
    (h : step x org s Action.coordResult = some t) (hi : PoolInv x s) : PoolInv x t := by
  unfold step at h
  split at h
  · simp at h
  · simp only at h
    split at h
    · simp only [Option.some.injEq] at h
      subst h
      exact pool_frame x s _ hi rfl rfl rfl rfl rfl rfl
        (fun hc => by simp [Sys.coordReturns] at hc)
    · simp at h

theorem step_pool_coordResultClosed (x : Externals) (org : String) (s t : Sys)
    (h : step x org s Action.coordResultClosed = some t) (hi : PoolInv x s) :
    PoolInv x t := by
  unfold step at h
  split at h
  · simp at h
  · simp only at h
    split at h
    · simp only [Option.some.injEq] at h
      subst h
      exact pool_frame x s _ hi rfl rfl rfl rfl rfl rfl
        (fun hc => by simp [Sys.coordReturns] at hc)
    · simp at h

theorem step_pool_scanStep (x : Externals) (org : String) (s t : Sys)
    (h : step x org s Action.scanStep = some t) (hi : PoolInv x s) : PoolInv x t := by
  unfold step at h
  split at h
  · simp at h
  · simp only at h
    split at h
    · simp only [Option.some.injEq] at h
      subst h
      exact pool_frame x s _ hi rfl rfl rfl
        (by simp [getContentsCalls_append, getContentsCalls_scanTop]) rfl rfl id
    · split at h
      · simp only [Option.some.injEq] at h
        subst h
        exact pool_frame x s _ hi rfl rfl rfl rfl rfl rfl id
      · simp at h
    · simp at h

theorem step_pool_valDone (x : Externals) (org : String) (s t : Sys)
    (h : step x org s Action.valDone = some t) (hi : PoolInv x s) : PoolInv x t := by
  unfold step at h
  split at h
  · simp at h
  · simp only at h
    split at h
    · split at h
      · simp only [Option.some.injEq] at h
        subst h
        exact pool_frame x s _ hi rfl rfl rfl rfl rfl rfl id
      · simp at h
    · simp at h

theorem step_pool_valClosed (x : Externals) (org : String) (s t : Sys)
    (h : step x org s Action.valClosed = some t) (hi : PoolInv x s) : PoolInv x t := by
  unfold step at h
  split at h
  · simp at h
  · simp only at h
    split at h
    · split at h
      · simp only [Option.some.injEq] at h
        subst h
        exact pool_frame x s _ hi rfl rfl rfl rfl rfl rfl id
      · simp at h
    · simp at h

theorem step_pool_valCheck (x : Externals) (org : String) (s t : Sys) (k : String)
    (h : step x org s (Action.valCheck k) = some t) (hi : PoolInv x s) : PoolInv x t := by
  unfold step at h
  split at h
  · simp at h
  · simp only at h
    split at h
    · split at h
      · split at h
        · rename_i pc cs hv
          simp only [Option.some.injEq] at h
          subst h
          exact pool_frame x s _ hi rfl rfl rfl
            (by simp [getContentsCalls_append,
                  getContentsCalls_validateCheck x _ _ _ _ pc cs hv]) rfl rfl id
        · simp only [Option.some.injEq] at h
          subst h
          exact pool_frame x s _ hi rfl rfl rfl rfl rfl rfl id
      · simp at h
    · simp at h

theorem step_pool_aggDone (x : Externals) (org : String) (s t : Sys)
    (h : step x org s Action.aggDone = some t) (hi : PoolInv x s) : PoolInv x t := by
  unfold step at h
  split at h
  · simp at h
  · simp only at h
    split at h
    · split at h
      · simp only [Option.some.injEq] at h
        subst h
        exact pool_frame x s _ hi rfl rfl rfl rfl rfl rfl id
      · simp at h
    · simp at h

theorem step_pool_aggRecv (x : Externals) (org : String) (s t : Sys)
    (h : step x org s Action.aggRecv = some t) (hi : PoolInv x s) : PoolInv x t := by
  unfold step at h
  split at h
  · simp at h
  · simp only at h
    split at h
    · simp only [Option.some.injEq] at h
      subst h
      exact pool_frame x s _ hi rfl rfl rfl rfl rfl rfl id
    · simp at h

theorem step_pool_aggClosed (x : Externals) (org : String) (s t : Sys)
    (h : step x org s Action.aggClosed = some t) (hi : PoolInv x s) : PoolInv x t := by
  unfold step at h
  split at h
  · simp at h
  · simp only at h
    split at h
    · simp only [Option.some.injEq] at h
      subst h
      exact pool_frame x s _ hi rfl rfl rfl rfl rfl rfl id
    · simp at h


theorem inflight_replicate (n : Nat) :
    inflight (List.replicate n WorkerPc.selecting) = [] := by
  induction n with
  | zero => rfl
  | succ n ih =>
    simp only [List.replicate_succ, inflight, List.filterMap_cons, WorkerPc.held]
    exact ih

theorem inflight_set_idle (ws : List WorkerPc) (i : Nat) (w v : WorkerPc)
    (h : ws.get? i = some w) (hw : w.held = none) (hv : v.held = none) :
    (inflight (ws.set i v)).Perm (inflight ws) := by
  simpa [hw, hv] using inflight_set ws i w v h

theorem pool_set_idle (x : Externals) (s : Sys) (i : Nat) (w v : WorkerPc)
    (hi : PoolInv x s) (h : s.workers.get? i = some w) (hw : w.held = none)
    (hv : v.held = none) (hve : v = WorkerPc.exited ∨ s.fetchClosed = false) :
    PoolInv x { s with workers := s.workers.set i v } := by
  obtain ⟨a, b, c, d, e, f⟩ := hi
  have hne : s.workers ≠ [] := by
    intro hnil
    rw [hnil] at h
    simp at h
  constructor
  · exact (List.Perm.append_left _ (inflight_set_idle _ i w v h hw hv)).trans a
  · exact b
  · exact c
  · intro hs
    exact absurd (d hs).1 hne
  · exact e
  · intro hc w1 hw1
    rcases hve with hve | hve
    · rcases List.mem_or_eq_of_mem_set hw1 with h1 | h1
      · exact f hc w1 h1
      · exact h1.trans hve
    · simp only [hve] at hc
      exact absurd hc (by simp)

theorem step_pool_workerDone (x : Externals) (org : String) (s t : Sys) (i : Nat)
    (h : step x org s (Action.workerDone i) = some t) (hi : PoolInv x s) : PoolInv x t := by
  unfold step at h
  split at h
  · simp at h
  · simp only at h
    split at h
    · rename_i hw
      split at h
      · simp only [Option.some.injEq] at h
        subst h
        exact pool_set_idle x s i _ _ hi hw rfl rfl (Or.inl rfl)
      · simp at h
    · simp at h

theorem step_pool_workerClosed (x : Externals) (org : String) (s t : Sys) (i : Nat)
    (h : step x org s (Action.workerClosed i) = some t) (hi : PoolInv x s) : PoolInv x t := by
  unfold step at h
  split at h
  · simp at h
  · simp only at h
    split at h
    · rename_i hw _
      simp only [Option.some.injEq] at h
      subst h
      exact pool_set_idle x s i _ _ hi hw rfl rfl (Or.inl rfl)
    · simp at h

theorem not_closed_of_mem (x : Externals) (s : Sys) (hi : PoolInv x s) (i : Nat)
    (w : WorkerPc) (h : s.workers.get? i = some w) (hw : w ≠ WorkerPc.exited) :
    s.fetchClosed = false := by
  cases hc : s.fetchClosed with
  | false => rfl
  | true => exact absurd (hi.closed hc w (List.get?_mem h)) hw

theorem workerStep_value (x : Externals) (r : Repository) (pc : WorkerPc) (cs : List Call)
    (h : workerStep x (Recv.value r) = some (pc, cs)) :
    ∃ f, pc = WorkerPc.sending f ∧ fetched x r = some f ∧ (getContentsCalls cs).length = 1 := by
  simp only [workerStep] at h
  split at h
  · rename_i f cs1 hf
    simp only [Option.some.injEq, Prod.mk.injEq] at h
    refine ⟨f, h.1.symm, by simp [fetched, hf], ?_⟩
    rw [← h.2]
    unfold fetchOne at hf
    split at hf
    · simp at hf
    · split at hf
      · simp only [Option.some.injEq, Prod.mk.injEq] at hf
        rw [← hf.2]
        rfl
      · simp at hf
  · simp at h

theorem step_pool_workerRecv (x : Externals) (org : String) (s t : Sys) (i : Nat)
    (h : step x org s (Action.workerRecv i) = some t) (hi : PoolInv x s) : PoolInv x t := by
  unfold step at h
  split at h
  · simp at h
  · simp only at h
    split at h
    · rename_i r rs next hw hs
      split at h
      · rename_i pc cs hstep
        simp only [Option.some.injEq] at h
        subst h
        obtain ⟨f, hpc, hf, hcs⟩ := workerStep_value x r pc cs hstep
        subst hpc
        have hnc := not_closed_of_mem x s hi i _ hw (by simp)
        obtain ⟨a, b, c, d, e, g⟩ := hi
        have hne : s.workers ≠ [] := by
          intro hnil
          rw [hnil] at hw
          simp at hw
        constructor
        · have h1 := inflight_set s.workers i _ (WorkerPc.sending f) hw
          simp only [WorkerPc.held, Option.toList, List.nil_append, List.singleton_append] at h1
          simp only [List.filterMap_append, List.filterMap_cons, hf, List.filterMap_nil]
          refine (List.Perm.append_left _ h1).trans ?_
          refine List.perm_middle.trans ?_
          exact (List.perm_append_singleton f _).symm.trans (List.Perm.append_right _ a)
        · intro r1 hr1
          rcases List.mem_append.mp hr1 with h1 | h1
          · exact b r1 h1
          · simp only [List.mem_singleton] at h1
            simp [h1, hf]
        · simp only [getContentsCalls_append, List.length_append, c, hcs, List.length_singleton]
        · intro hsp
          exact absurd (d hsp).1 hne
        · exact e
        · intro hc
          simp only [hnc] at hc
          exact absurd hc (by simp)
      · simp only [Option.some.injEq] at h
        subst h
        exact pool_frame x s _ hi rfl rfl rfl rfl rfl rfl id
    · simp at h

theorem step_pool_valRecv (x : Externals) (org : String) (s t : Sys) (i : Nat)
    (h : step x org s (Action.valRecv i) = some t) (hi : PoolInv x s) : PoolInv x t := by
  unfold step at h
  split at h
  · simp at h
  · simp only at h
    split at h
    · rename_i f hv hw
      simp only [Option.some.injEq] at h
      subst h
      have hnc := not_closed_of_mem x s hi i _ hw (by simp)
      obtain ⟨a, b, c, d, e, g⟩ := hi
      have hne : s.workers ≠ [] := by
        intro hnil
        rw [hnil] at hw
        simp at hw
      constructor
      · have h1 := inflight_set s.workers i _ WorkerPc.selecting hw
        simp only [WorkerPc.held, Option.toList, List.nil_append, List.singleton_append] at h1
        simp only [List.append_assoc, List.singleton_append]
        exact (List.Perm.append_left _ h1).trans a
      · exact b
      · simp only [getContentsCalls_append, getContentsCalls_validateStep, List.append_nil]
        exact c
      · intro hsp
        exact absurd (d hsp).1 hne
      · exact e
      · intro hc
        simp only [hnc] at hc
        exact absurd hc (by simp)
    · simp at h

theorem step_pool_closeFetch (x : Externals) (org : String) (s t : Sys)
    (h : step x org s Action.closeFetch = some t) (hi : PoolInv x s) : PoolInv x t := by
  unfold step at h
  split at h
  · simp at h
  · simp only at h
    split at h
    · rename_i hc
      simp only [Option.some.injEq] at h
      subst h
      simp only [Bool.and_eq_true, Bool.not_eq_true', List.all_eq_true, decide_eq_true_eq] at hc
      obtain ⟨a, b, c, d, e, g⟩ := hi
      constructor
      · exact a
      · exact b
      · exact c
      · intro hsp
        simp only [hc.1.1] at hsp
        exact absurd hsp (by simp)
      · exact e
      · intro _
        exact hc.2
    · simp at h

theorem step_pool_coordAdvance (x : Externals) (org : String) (s t : Sys)
    (h : step x org s Action.coordAdvance = some t) (hi : PoolInv x s) : PoolInv x t := by
  unfold step at h
  split at h
  · simp at h
  · simp only at h
    split at h <;> simp only [Option.some.injEq, reduceCtorEq] at h <;> (try subst h)
    case h_1 hc =>
      exact pool_frame x s _ hi rfl rfl rfl rfl rfl rfl (fun _ => Or.inl hc)
    case h_2 hc =>
      obtain ⟨a, b, c, d, e, g⟩ := hi
      obtain ⟨hw, hcl⟩ := d (e (Or.inr hc))
      constructor
      · simp only [inflight_replicate]
        simpa [hw, inflight] using a
      · exact b
      · exact c
      · intro hsp
        simp at hsp
      · intro hsp
        simp at hsp
      · intro hclosed
        simp only [hcl] at hclosed
        exact absurd hclosed (by simp)
    all_goals
      exact pool_frame x s _ hi rfl rfl rfl rfl rfl rfl (fun hc => by simp at hc)

theorem step_pool (x : Externals) (org : String) (s t : Sys) (a : Action)
    (h : step x org s a = some t) (hi : PoolInv x s) : PoolInv x t := by
  cases a with
  | callerCancel => exact step_pool_callerCancel x org s t h hi
  | coordAdvance => exact step_pool_coordAdvance x org s t h hi
  | coordDone => exact step_pool_coordDone x org s t h hi
  | coordErr => exact step_pool_coordErr x org s t h hi
  | coordResult => exact step_pool_coordResult x org s t h hi
  | coordResultClosed => exact step_pool_coordResultClosed x org s t h hi
  | scanStep => exact step_pool_scanStep x org s t h hi
  | workerDone i => exact step_pool_workerDone x org s t i h hi
  | workerRecv i => exact step_pool_workerRecv x org s t i h hi
  | workerClosed i => exact step_pool_workerClosed x org s t i h hi
  | closeFetch => exact step_pool_closeFetch x org s t h hi
  | valDone => exact step_pool_valDone x org s t h hi
  | valRecv i => exact step_pool_valRecv x org s t i h hi
  | valClosed => exact step_pool_valClosed x org s t h hi
  | valCheck k => exact step_pool_valCheck x org s t k h hi
  | aggDone => exact step_pool_aggDone x org s t h hi
  | aggRecv => exact step_pool_aggRecv x org s t h hi
  | aggClosed => exact step_pool_aggClosed x org s t h hi

theorem run_pool (x : Externals) (org : String) (sched : List Action) (s t : Sys)
    (h : run x org s sched = some t) (hi : PoolInv x s) : PoolInv x t := by
  induction sched generalizing s with
  | nil =>
    simp only [run, Option.some.injEq] at h
    exact h ▸ hi
  | cons a as ih =>
    simp only [run] at h
    split at h
    · rename_i s1 hs
      exact ih s1 h (step_pool x org s s1 a hs hi)
    · simp at h

/-- What the fetch pool does guarantee, in every run and whatever the
cancellation: the results it has emitted, together with those its workers hold
at their send, are exactly the records built for the repositories the workers
received, one each; `GetContents` was called once per received repository; and
when the output is closed no worker holds a result, so that the results emitted
are, up to order, the records of the repositories received. -/
theorem fetchCodeowners_received_once (x : Externals) (org : String) (sched : List Action)
    (s : Sys) (hr : run x org initSys sched = some s) :
    (s.fetchLog ++ inflight s.workers).Perm (s.scanLog.filterMap (fetched x)) ∧
    (getContentsCalls s.calls).length = s.scanLog.length ∧
    (s.fetchClosed = true →
      s.fetchLog.Perm (s.scanLog.filterMap (fetched x)) ∧
      s.fetchLog.length = s.scanLog.length) := by
  obtain ⟨a, b, c, d, e, g⟩ := run_pool x org sched initSys s hr (pool_init x)
  refine ⟨a, c, fun hc => ?_⟩
  have hinf : inflight s.workers = [] := by
    have hall := g hc
    unfold inflight
    rw [List.filterMap_eq_nil_iff]
    intro w hw
    rw [hall w hw]
    rfl
  rw [hinf, List.append_nil] at a
  refine ⟨a, ?_⟩
  rw [a.length_eq]
  have : ∀ l : List Repository, (∀ r ∈ l, (fetched x r).isSome = true) →
      (l.filterMap (fetched x)).length = l.length := by
    intro l
    induction l with
    | nil => intro _; rfl
    | cons r l ih =>
      intro hl
      obtain ⟨f, hf⟩ := Option.isSome_iff_exists.mp (hl r (List.mem_cons_self _ _))
      simp only [List.filterMap_cons, hf, List.length_cons]
      rw [ih (fun r1 h1 => hl r1 (List.mem_cons_of_mem _ h1))]
  exact this _ b

/-! ## Claims on `fetchCodeowners` -/

/-- C8 fails on the code. The scanner offers `A`, `B`, `C` on the input of the
fetch pool and would then close it; the caller never cancels. Once
`fetchCodeowners` has returned, its deferred `cancel` (line 106) has made the
context of the workers done, so a worker in its `select` may take the
`ctx.Done()` case. In the first run both workers do so at once: the pool closes
its output having fetched and emitted nothing, and `A`, `B`, `C` stay with the
scanner. In the second run one worker fetches `A` and emits its result, then
both workers return: the pool closes its output with one result for three
items. -/
theorem fetchCodeowners_closes_early :
    (∃ s, run scenario "acme" initSys
        [.coordAdvance, .coordAdvance, .scanStep, .coordAdvance, .workerDone 0,
         .workerDone 1, .closeFetch] = some s ∧
      s.callerDone = false ∧ s.crashed = false ∧ s.fetchClosed = true ∧
      s.scan = some (ScanPc.sending [acmeRepo "A", acmeRepo "B", acmeRepo "C"] 0) ∧
      s.scanLog = [] ∧ s.fetchLog = [] ∧ s.calls = [Call.listByOrg "acme" 0]) ∧
    (∃ s, run scenario "acme" initSys
        [.coordAdvance, .coordAdvance, .scanStep, .coordAdvance, .coordAdvance,
         .workerRecv 0, .valRecv 0, .workerDone 0, .workerDone 1, .closeFetch] = some s ∧
      s.callerDone = false ∧ s.crashed = false ∧ s.fetchClosed = true ∧
      s.scan = some (ScanPc.sending [acmeRepo "B", acmeRepo "C"] 0) ∧
      s.scanLog = [acmeRepo "A"] ∧
      s.fetchLog.map codeownersFetch.Repo = [acmeRepo "A"]) :=
  ⟨⟨_, rfl, rfl, rfl, rfl, rfl, rfl, rfl, rfl⟩, ⟨_, rfl, rfl, rfl, rfl, rfl, rfl, rfl⟩⟩

end Autonomy
